import Mathlib

/-!
# EthPriceOracle.js: request queue, retry loop and price normalisation

A shallow embedding of `src/EthPriceOracle.js`.  The module keeps one global
array `pendingRequests`; event callbacks push onto it and a periodic tick
(`processQueue`) shifts entries off its head and drives each one through
`processRequest` and `setLatestEthPrice`.

The file reaches the outside world at three places, which the embedding takes
as parameters of the run (`Env`):

* `retrieveLatestEthPrice()` is called but not defined in the file; its n-th
  call either throws or returns a value (`Env.fetchAt`);
* `oracleContract.methods.setLatestEthPrice(..).send(..)`; its n-th call either
  resolves or throws (`Env.sendAt`);
* the configuration constants `CHUNK_SIZE` and `MAX_RETRIES`.

Every call of these collaborators is recorded, in order, in `World.trace`.
JavaScript values that the code touches are strings or `undefined` (`Val`).
Exceptions are explicit (`Completion`).  The run is sequential: no event callback
and no second tick runs while a tick is in progress.
-/

namespace EthPriceOracle

/-! ## JavaScript values and the built-ins used by the file -/

/-- A JavaScript value as far as this file meets one: `undefined` or a string. -/
inductive Val where
  | undefined
  | str (s : String)
  deriving DecidableEq, Repr

/-- The abstract operation `ToString`, applied by `parseInt` to its argument. -/
def Val.toJSString : Val → String
  | .undefined => "undefined"
  | .str s => s

/-- The `String.prototype.replace(".", "")` call of line 94: with a string pattern only
the first occurrence is replaced. -/
def replaceFirstDot : List Char → List Char
  | [] => []
  | c :: cs => if c = '.' then cs else c :: replaceFirstDot cs

/-- Code points that `parseInt` skips at the start of its input
(ECMAScript `WhiteSpace` and `LineTerminator`). -/
def isStrWhiteSpace (c : Char) : Bool :=
  let n := c.toNat
  n = 9 || n = 10 || n = 11 || n = 12 || n = 13 || n = 32 || n = 160 || n = 5760 ||
  (8192 ≤ n && n ≤ 8202) || n = 8232 || n = 8233 || n = 8239 || n = 8287 ||
  n = 12288 || n = 65279

/-- Value of a character as a digit of the given radix (10 or 16), if it is one. -/
def digitOf (radix : Nat) (c : Char) : Option Nat :=
  let n := c.toNat
  if 48 ≤ n ∧ n ≤ 57 then some (n - 48)
  else if radix = 16 ∧ 97 ≤ n ∧ n ≤ 102 then some (n - 87)
  else if radix = 16 ∧ 65 ≤ n ∧ n ≤ 70 then some (n - 55)
  else none

/-- Reads the longest run of radix digits at the head of the input, most significant
first; `acc` is the value read so far and the flag tells whether a digit was seen. -/
def readDigits (radix : Nat) : List Char → Nat → Bool → Nat × Bool
  | [], acc, seen => (acc, seen)
  | c :: cs, acc, seen =>
    match digitOf radix c with
    | some d => readDigits radix cs (acc * radix + d) true
    | none => (acc, seen)

/-- Drops the leading white space of the input. -/
def trimStart : List Char → List Char
  | [] => []
  | c :: cs => if isStrWhiteSpace c then trimStart cs else c :: cs

/-- The sign that `parseInt` reads off the head of its trimmed input, and the rest. -/
def stripSign : List Char → Int × List Char
  | '-' :: r => (-1, r)
  | '+' :: r => (1, r)
  | r => (1, r)

/-- The radix that `parseInt` works in when it is given none: 16 after `0x` or `0X`,
which is dropped, else 10. -/
def stripRadix : List Char → Nat × List Char
  | '0' :: 'x' :: r => (16, r)
  | '0' :: 'X' :: r => (16, r)
  | r => (10, r)

/-- The global `parseInt(string)` with no radix argument.  The result is the
mathematical integer that was read, or `none` for `NaN`.  (JavaScript then rounds the
integer to a double; an integer below `2^53` in magnitude is kept exactly and a larger
one rounds to a double that is still at least `2^53`.  The only consumer in this file is
the `BN` constructor, which tells exactly these two cases apart, see `newBN`.) -/
def parseInt (input : String) : Option Int :=
  let signed := stripSign (trimStart input.data)
  let based := stripRadix signed.2
  match readDigits based.1 based.2 0 false with
  | (n, true) => some (signed.1 * (n : Int))
  | (_, false) => none

/-- The constructor `new BN(number)` of bn.js on a JavaScript number (`none` is `NaN`).
It starts from `number || 0`, so `NaN` becomes zero, and its number initialiser asserts
that the magnitude is below `0x20000000000000`; a failed assertion throws (`none`). -/
def newBN (number : Option Int) : Option Int :=
  let n := number.getD 0
  if n.natAbs < 2 ^ 53 then some n else none

/-- The method `BN.prototype.toString()`: the decimal numeral, with a minus sign for a
negative value. -/
def bnToString : Int → String
  | .ofNat n => Nat.repr n
  | .negSucc n => "-" ++ Nat.repr (n + 1)


/-! ## State of the module and its collaborators -/

/-- An entry of `pendingRequests`: the object pushed at line 41. -/
structure Request where
  callerAddress : Val
  id : Val
  deriving DecidableEq, Repr

/-- The `returnValues` object of a contract event. -/
structure ReturnValues where
  callerAddress : Val
  id : Val
  deriving DecidableEq, Repr

/-- A contract event as the subscription callback receives it; `returnValues` may be
absent. -/
structure Event where
  returnValues : Option ReturnValues
  deriving DecidableEq, Repr

/-- What one call of `retrieveLatestEthPrice()` does: it throws, or returns a value. -/
inductive FetchResult where
  | fail
  | ok (v : Val)
  deriving DecidableEq, Repr

/-- The calls that a run makes, in the order it makes them. -/
inductive Action where
  /-- Entry into `processRequest(_, _, id, callerAddress)`. -/
  | start (id callerAddress : Val)
  /-- One call of `retrieveLatestEthPrice()`. -/
  | fetch
  /-- One call of the contract method `setLatestEthPrice(price, callerAddress, id)`
  followed by `send`. -/
  | submit (price : String) (callerAddress : Val) (id : String)
  deriving DecidableEq, Repr

/-- The configuration constants and the behaviour of the two collaborators. -/
structure Env where
  /-- The constant `CHUNK_SIZE` (line 7). -/
  CHUNK_SIZE : Nat
  /-- The constant `MAX_RETRIES` (line 8). -/
  MAX_RETRIES : Nat
  /-- Result of the n-th call (from 0) of `retrieveLatestEthPrice()`. -/
  fetchAt : Nat → FetchResult
  /-- Whether the n-th submission (from 0) succeeds; `false` means that the call or its
  `send` throws. -/
  sendAt : Nat → Bool

/-- The mutable state: the global queue, how many fetches and submissions were made so
far, the record of calls, and the console output. -/
structure World where
  pendingRequests : List Request
  fetches : Nat
  sends : Nat
  trace : List Action
  log : List String
  deriving DecidableEq, Repr

/-- How a call ends: it returns, or an exception leaves it. -/
inductive Completion where
  | returned
  | threw
  deriving DecidableEq, Repr

/-! ## The functions of the file -/

/-- Lines 38 to 42, `addRequestToQueue(event)`.  Reading a property of an absent
`returnValues` throws; otherwise the entry is pushed, whatever its two fields hold. -/
def addRequestToQueue (event : Event) (w : World) : Completion × World :=
  match event.returnValues with
  | none => (.threw, w)
  | some rv =>
    let callerAddress := rv.callerAddress
    let id := rv.id
    (.returned, { w with pendingRequests := w.pendingRequests ++ [⟨callerAddress, id⟩] })

/-- Lines 21 to 27, the callback that `filterEvents` registers for
`GetLatestEthPriceEvent`: `err` is the error argument of the callback, if there is one. -/
def onGetLatestEthPriceEvent (err : Option String) (event : Event) (w : World) :
    Completion × World :=
  match err with
  | some _ => (.returned, { w with log := w.log ++ ["Error on event"] })
  | none => addRequestToQueue event w

/-- Lines 94 to 96: the price handed to the contract, as a big number; `none` when a
step throws (`replace` on a value that is no string, or the `BN` constructor). -/
def normalisePrice (ethPrice : Val) : Option Int :=
  match ethPrice with
  | .undefined => none
  | .str p =>
    let ethPrice := String.mk (replaceFirstDot p.data)
    match newBN (some (10 ^ 10)) with
    | none => none
    | some multiplier =>
      match newBN (parseInt ethPrice) with
      | none => none
      | some b => some (b * multiplier)

/-- Lines 87 to 110, `setLatestEthPrice`.  Lines 94 to 97 run outside the `try`, so
what they throw leaves the function; what the contract call throws is caught and
logged. -/
def setLatestEthPrice (env : Env) (callerAddress ethPrice id : Val) (w : World) :
    Completion × World :=
  match normalisePrice ethPrice with
  | none => (.threw, w)
  | some ethPriceInt =>
    match newBN (parseInt id.toJSString) with
    | none => (.threw, w)
    | some idInt =>
      let w1 : World :=
        { w with
          sends := w.sends + 1
          trace := w.trace ++
            [.submit (bnToString ethPriceInt) callerAddress (bnToString idInt)] }
      if env.sendAt w.sends then (.returned, w1)
      else
        (.returned,
          { w1 with log := w1.log ++ ["Error encountered while calling setLatestEthPrice."] })

/-- The `while` loop of lines 60 to 84, with its variable `retries`.  The first argument
bounds the number of iterations that are followed; `none` means the bound was reached. -/
def processRequestLoop (env : Env) (id callerAddress : Val) :
    Nat → Nat → World → Option (Completion × World)
  | 0, _, _ => none
  | fuel + 1, retries, w =>
    if retries < env.MAX_RETRIES then
      let w1 : World := { w with fetches := w.fetches + 1, trace := w.trace ++ [.fetch] }
      let attempt : Completion × World :=
        match env.fetchAt w.fetches with
        | .fail => (.threw, w1)
        | .ok ethPrice => setLatestEthPrice env callerAddress ethPrice id w1
      match attempt with
      | (.returned, w2) => some (.returned, w2)
      | (.threw, w2) =>
        if (retries : Int) = (env.MAX_RETRIES : Int) - 1 then
          some (setLatestEthPrice env callerAddress (.str "0") id w2)
        else
          processRequestLoop env id callerAddress fuel (retries + 1) w2
    else some (.returned, w)

/-- Lines 58 to 85, `processRequest`.  Every iteration that does not return raises
`retries`, so `MAX_RETRIES + 1` iterations are enough (`processRequest_spec`). -/
def processRequest (env : Env) (id callerAddress : Val) (w : World) :
    Option (Completion × World) :=
  processRequestLoop env id callerAddress (env.MAX_RETRIES + 1) 0
    { w with trace := w.trace ++ [.start id callerAddress] }

/-- The `while` loop of lines 46 to 55, with its variable `processedRequests`.  The
first argument bounds the number of iterations, as in `processRequestLoop`.  `shift()`
takes the head of the queue; on an empty array it would give `undefined`, whose `id`
cannot be read, but the loop condition excludes that. -/
def processQueueLoop (env : Env) : Nat → Nat → World → Option (Completion × World)
  | 0, _, _ => none
  | fuel + 1, processedRequests, w =>
    if w.pendingRequests.length > 0 ∧ processedRequests < env.CHUNK_SIZE then
      match w.pendingRequests with
      | [] => some (.threw, w)
      | req :: rest =>
        match processRequest env req.id req.callerAddress { w with pendingRequests := rest } with
        | none => none
        | some (.threw, w1) => some (.threw, w1)
        | some (.returned, w1) => processQueueLoop env fuel (processedRequests + 1) w1
    else some (.returned, w)

/-- Lines 44 to 56, `processQueue`: one tick.  Every iteration that does not leave the
loop raises `processedRequests`, so `CHUNK_SIZE + 1` iterations are enough
(`queueLoop_spec`). -/
def processQueue (env : Env) (w : World) : Option (Completion × World) :=
  processQueueLoop env (env.CHUNK_SIZE + 1) 0 w

/-- Successive ticks (lines 137 to 139) with nothing else running in between.  A tick
that throws leaves a rejected promise that nothing in the file handles; the run is
followed up to there. -/
def ticks (env : Env) : Nat → World → Option (Completion × World)
  | 0, w => some (.returned, w)
  | k + 1, w =>
    match processQueue env w with
    | some (.returned, w1) => ticks env k w1
    | r => r

/-! ## Reading a trace -/

/-- The requests that were handed to `processRequest`, in order. -/
def handed : List Action → List Request
  | [] => []
  | .start id callerAddress :: t => ⟨callerAddress, id⟩ :: handed t
  | _ :: t => handed t

/-- The submissions made, in order. -/
def submissions : List Action → List Action
  | [] => []
  | .submit p c i :: t => .submit p c i :: submissions t
  | _ :: t => submissions t

/-- The number of calls of `retrieveLatestEthPrice()`. -/
def fetchCalls : List Action → Nat
  | [] => 0
  | .fetch :: t => fetchCalls t + 1
  | _ :: t => fetchCalls t

/-- An empty world around a given queue. -/
def World.ofQueue (q : List Request) : World :=
  { pendingRequests := q, fetches := 0, sends := 0, trace := [], log := [] }

/-! ## Derived notions used in the statements -/

/-- The arguments of the submission that `setLatestEthPrice` makes for a price and a
request, or `none` when lines 94 to 97 throw. -/
def submitArgs (callerAddress ethPrice id : Val) : Option Action :=
  match normalisePrice ethPrice, newBN (parseInt id.toJSString) with
  | some ethPriceInt, some idInt =>
    some (.submit (bnToString ethPriceInt) callerAddress (bnToString idInt))
  | _, _ => none

/-- Whether line 97 goes through for a request id. -/
def idOk (id : Val) : Bool := (newBN (parseInt id.toJSString)).isSome

/-- What the body of the `try` block yields at the n-th fetch: the submission it makes,
or `none` when the fetch or the normalisation throws. -/
def attemptAction (env : Env) (callerAddress id : Val) (n : Nat) : Option Action :=
  match env.fetchAt n with
  | .fail => none
  | .ok ethPrice => submitArgs callerAddress ethPrice id

/-- The world after one submission was made. -/
def World.afterSubmit (env : Env) (a : Action) (w : World) : World :=
  { w with
    sends := w.sends + 1
    trace := w.trace ++ [a]
    log := if env.sendAt w.sends then w.log
      else w.log ++ ["Error encountered while calling setLatestEthPrice."] }

/-- The world after `k` fetches were made. -/
def World.afterFetches (k : Nat) (w : World) : World :=
  { w with fetches := w.fetches + k, trace := w.trace ++ List.replicate k .fetch }

/-! ## Decimal strings, as the specification speaks of them -/

/-- A decimal digit. -/
def isDecDigit (ch : Char) : Bool := decide (48 ≤ ch.toNat) && decide (ch.toNat ≤ 57)

/-- The integer denoted by a list of decimal digits, most significant first. -/
def digitsValue (ds : List Char) : Nat :=
  ds.foldl (fun acc ch => acc * 10 + (ch.toNat - 48)) 0

/-- A decimal price string: digits with at most one decimal point. -/
def isDecimalPrice (p : String) : Bool :=
  p.data.all (fun ch => isDecDigit ch || ch == '.') && decide (p.data.count '.' ≤ 1)

/-- The integer denoted by a price string once its decimal point is removed. -/
def priceInteger (p : String) : Nat :=
  digitsValue (p.data.filter (fun ch => ch != '.'))

/-- A decimal integer string: digits only. -/
def isDecimalInteger (s : String) : Bool := s.data.all isDecDigit

/-- The world with its console output forgotten. -/
def World.eraseLog (w : World) : World := { w with log := [] }

/-- The result of a run with the console output forgotten. -/
def butLog (r : Option (Completion × World)) : Option (Completion × World) :=
  r.map (fun x => (x.1, x.2.eraseLog))

/-- The environment in which a fetch whose result lines 94 to 97 reject, for the given
request, is replaced by a fetch that throws. -/
def Env.rejectedAsFailed (env : Env) (callerAddress id : Val) : Env :=
  { env with
    fetchAt := fun n =>
      match env.fetchAt n with
      | .fail => .fail
      | .ok ethPrice =>
        match submitArgs callerAddress ethPrice id with
        | none => .fail
        | some _ => .ok ethPrice }

/-! ## Concrete configurations and queues -/

/-- The default configuration with a price source that answers `"1234.56"` and a
contract that accepts every submission. -/
def liveEnv : Env :=
  { CHUNK_SIZE := 3, MAX_RETRIES := 5, fetchAt := fun _ => .ok (.str "1234.56"),
    sendAt := fun _ => true }

/-- The default configuration with a price source that fails at every call. -/
def deadEnv : Env :=
  { CHUNK_SIZE := 3, MAX_RETRIES := 5, fetchAt := fun _ => .fail, sendAt := fun _ => true }

/-- The default configuration with a price source that answers a price whose digits
denote `2^53 + 1`. -/
def largePriceEnv : Env :=
  { CHUNK_SIZE := 3, MAX_RETRIES := 5, fetchAt := fun _ => .ok (.str "90071992.54740993"),
    sendAt := fun _ => true }

/-- The default configuration with a price source that answers without a price. -/
def noPriceEnv : Env :=
  { CHUNK_SIZE := 3, MAX_RETRIES := 5, fetchAt := fun _ => .ok .undefined,
    sendAt := fun _ => true }

/-- Five requests with small ids. -/
def fiveQueue : List Request :=
  [⟨.str "0xA", .str "1"⟩, ⟨.str "0xB", .str "2"⟩, ⟨.str "0xC", .str "3"⟩,
    ⟨.str "0xD", .str "4"⟩, ⟨.str "0xE", .str "5"⟩]

/-- Two requests, the first with the id `2^53 + 1`. -/
def cutQueue : List Request :=
  [⟨.str "0xA", .str "9007199254740993"⟩, ⟨.str "0xB", .str "2"⟩]

/-- Five requests, the first with the id `2^53 + 1`. -/
def cutFiveQueue : List Request :=
  [⟨.str "0xA", .str "9007199254740993"⟩, ⟨.str "0xB", .str "2"⟩, ⟨.str "0xC", .str "3"⟩,
    ⟨.str "0xD", .str "4"⟩, ⟨.str "0xE", .str "5"⟩]

/-- What a claim about a run looks at: how it ended, the requests handed to
`processRequest`, and the queue that is left. -/
def queueView (r : Option (Completion × World)) :
    Option (Completion × List Request × List Request) :=
  r.map (fun x => (x.1, handed x.2.trace, x.2.pendingRequests))

/-- What a claim about one request looks at: how the call ended, the number of fetches,
and the submissions. -/
def requestView (r : Option (Completion × World)) : Option (Completion × Nat × List Action) :=
  r.map (fun x => (x.1, fetchCalls x.2.trace, submissions x.2.trace))

/-- What a call of `processRequest` may change: it leaves the queue alone, makes `k`
fetches and then the submissions `s`, of which there is at most one, for the caller
address it was given. -/
def Progress (c : Val) (w w1 : World) (k : Nat) (s : List Action) : Prop :=
  w1.pendingRequests = w.pendingRequests ∧ w1.fetches = w.fetches + k ∧
  w1.sends = w.sends + s.length ∧
  w1.trace = w.trace ++ (List.replicate k .fetch ++ s) ∧
  s.length ≤ 1 ∧ ∀ a ∈ s, ∃ price i, a = .submit price c i

/-- The default configuration with a price source that answers `"1234.56"` and a
contract on which every submission fails. -/
def failingSendEnv : Env :=
  { CHUNK_SIZE := 3, MAX_RETRIES := 5, fetchAt := fun _ => .ok (.str "1234.56"),
    sendAt := fun _ => false }

/-- Three requests, the second with the id `2^53 + 1`. -/
def midCutQueue : List Request :=
  [⟨.str "0xA", .str "1"⟩, ⟨.str "0xB", .str "9007199254740993"⟩, ⟨.str "0xC", .str "3"⟩]

/-- The calls that belong to one request of a tick in which nothing throws: the entry
into `processRequest`, then at most `MAX_RETRIES` fetches, then the submissions, of
which there is at most one, and exactly one when `MAX_RETRIES ≥ 1`; no fetch follows a
submission. -/
def RequestSegment (env : Env) (r : Request) (seg : List Action) : Prop :=
  ∃ k s, seg = .start r.id r.callerAddress :: (List.replicate k .fetch ++ s) ∧
    k ≤ env.MAX_RETRIES ∧ s.length ≤ 1 ∧ (1 ≤ env.MAX_RETRIES → s.length = 1) ∧
    ∀ a ∈ s, ∃ price i, a = .submit price r.callerAddress i

/-! ## Lemmas -/

theorem setLatestEthPrice_eq (env : Env) (c p id : Val) (w : World) :
    setLatestEthPrice env c p id w =
      match submitArgs c p id with
      | none => (.threw, w)
      | some a => (.returned, w.afterSubmit env a) := by
  unfold setLatestEthPrice submitArgs World.afterSubmit
  cases h1 : normalisePrice p with
  | none => simp
  | some a =>
    cases h2 : newBN (parseInt id.toJSString) with
    | none => simp
    | some b =>
      by_cases h3 : env.sendAt w.sends = true <;> simp [h3]

theorem afterFetches_zero (w : World) : w.afterFetches 0 = w := by
  cases w; simp [World.afterFetches]

theorem afterFetches_succ (k : Nat) (w : World) :
    (w.afterFetches 1).afterFetches k = w.afterFetches (k + 1) := by
  cases w
  simp only [World.afterFetches, List.replicate_succ, List.replicate_zero, List.append_assoc,
    List.singleton_append, World.mk.injEq, true_and, and_true]
  omega

theorem afterFetches_succ' (k : Nat) (w : World) :
    (w.afterFetches k).afterFetches 1 = w.afterFetches (k + 1) := by
  cases w
  simp only [World.afterFetches, List.replicate_succ', List.replicate_zero, List.append_assoc,
    World.mk.injEq, true_and, and_true]
  simp [Nat.add_assoc]

/-- One iteration whose `try` body throws while further attempts remain. -/
theorem loop_step_fail (env : Env) (id c : Val) (fuel r : Nat) (w : World)
    (hr : r + 1 < env.MAX_RETRIES) (hf : attemptAction env c id w.fetches = none) :
    processRequestLoop env id c (fuel + 1) r w =
      processRequestLoop env id c fuel (r + 1) (w.afterFetches 1) := by
  have hlt : r < env.MAX_RETRIES := by omega
  have hne : ¬ ((r : Int) = (env.MAX_RETRIES : Int) - 1) := by omega
  unfold attemptAction at hf
  rw [processRequestLoop]
  simp only [hlt, if_true]
  cases hfa : env.fetchAt w.fetches with
  | fail => simp [hne, World.afterFetches]
  | ok v =>
    rw [hfa] at hf
    dsimp only at hf
    simp only [setLatestEthPrice_eq, hf]
    simp [hne, World.afterFetches]

/-- The last iteration, when its `try` body throws: the sentinel is written back. -/
theorem loop_step_last (env : Env) (id c : Val) (fuel r : Nat) (w : World)
    (hr : r + 1 = env.MAX_RETRIES) (hf : attemptAction env c id w.fetches = none) :
    processRequestLoop env id c (fuel + 1) r w =
      some (setLatestEthPrice env c (.str "0") id (w.afterFetches 1)) := by
  have hlt : r < env.MAX_RETRIES := by omega
  have heq : (r : Int) = (env.MAX_RETRIES : Int) - 1 := by omega
  unfold attemptAction at hf
  rw [processRequestLoop]
  simp only [hlt, if_true]
  cases hfa : env.fetchAt w.fetches with
  | fail => simp [heq, World.afterFetches]
  | ok v =>
    rw [hfa] at hf
    dsimp only at hf
    simp only [setLatestEthPrice_eq, hf]
    simp [heq, World.afterFetches, setLatestEthPrice_eq]

/-- An iteration whose `try` body goes through. -/
theorem loop_step_ok (env : Env) (id c : Val) (fuel r : Nat) (w : World) (a : Action)
    (hr : r < env.MAX_RETRIES) (hf : attemptAction env c id w.fetches = some a) :
    processRequestLoop env id c (fuel + 1) r w =
      some (.returned, (w.afterFetches 1).afterSubmit env a) := by
  unfold attemptAction at hf
  rw [processRequestLoop]
  simp only [hr, if_true]
  cases hfa : env.fetchAt w.fetches with
  | fail => rw [hfa] at hf; cases hf
  | ok v =>
    rw [hfa] at hf
    dsimp only at hf
    simp only [setLatestEthPrice_eq, hf]
    simp [World.afterFetches]

/-- A run of `j` iterations whose `try` bodies all throw, none of them the last. -/
theorem loop_fail_run (env : Env) (id c : Val) (j : Nat) :
    ∀ (fuel r : Nat) (w : World), r + j < env.MAX_RETRIES →
      (∀ i, i < j → attemptAction env c id (w.fetches + i) = none) →
      processRequestLoop env id c (fuel + j) r w =
        processRequestLoop env id c fuel (r + j) (w.afterFetches j) := by
  induction j with
  | zero => intro fuel r w _ _; simp [afterFetches_zero]
  | succ j ih =>
    intro fuel r w hr hf
    have h0 : attemptAction env c id w.fetches = none := by simpa using hf 0 (by omega)
    rw [show fuel + (j + 1) = (fuel + j) + 1 by omega,
      loop_step_fail env id c (fuel + j) r w (by omega) h0,
      ih fuel (r + 1) (w.afterFetches 1) (by omega), afterFetches_succ]
    · congr 1; omega
    · intro i hi
      have := hf (i + 1) (by omega)
      simpa [World.afterFetches, Nat.add_assoc, Nat.add_comm 1 i] using this

theorem submitArgs_shape (c p id : Val) (a : Action) (h : submitArgs c p id = some a) :
    ∃ price i, a = .submit price c i := by
  unfold submitArgs at h
  cases h1 : normalisePrice p with
  | none => simp [h1] at h
  | some x =>
    cases h2 : newBN (parseInt id.toJSString) with
    | none => simp [h1, h2] at h
    | some y =>
      simp only [h1, h2, Option.some.injEq] at h
      exact ⟨_, _, h.symm⟩

theorem normalisePrice_sentinel : normalisePrice (.str "0") = some 0 := by decide

theorem submitArgs_sentinel (c id : Val) :
    submitArgs c (.str "0") id =
      match newBN (parseInt id.toJSString) with
      | some idInt => some (.submit "0" c (bnToString idInt))
      | none => none := by
  unfold submitArgs
  rw [normalisePrice_sentinel]
  cases newBN (parseInt id.toJSString) <;> rfl

theorem submitArgs_sentinel_none (c id : Val) :
    submitArgs c (.str "0") id = none ↔ idOk id = false := by
  rw [submitArgs_sentinel, idOk]
  cases newBN (parseInt id.toJSString) <;> simp

theorem submitArgs_none_of_not_idOk (c p id : Val) (h : idOk id = false) :
    submitArgs c p id = none := by
  unfold idOk at h
  unfold submitArgs
  cases h2 : newBN (parseInt id.toJSString) with
  | none => cases normalisePrice p <;> rfl
  | some y => simp [h2] at h

theorem progress_fetch_submit (env : Env) (c : Val) (w : World) (a : Action)
    (ha : ∃ price i, a = .submit price c i) :
    Progress c w ((w.afterFetches 1).afterSubmit env a) 1 [a] := by
  refine ⟨rfl, rfl, rfl, ?_, by simp, ?_⟩
  · simp [World.afterSubmit, World.afterFetches]
  · intro b hb
    simp only [List.mem_singleton] at hb
    subst hb
    exact ha

theorem progress_fetch (c : Val) (w : World) : Progress c w (w.afterFetches 1) 1 [] := by
  refine ⟨rfl, rfl, rfl, ?_, by simp, by simp⟩
  simp [World.afterFetches]

theorem progress_step (c : Val) (w w1 : World) (k : Nat) (s : List Action)
    (h : Progress c (w.afterFetches 1) w1 k s) : Progress c w w1 (k + 1) s := by
  obtain ⟨h1, h2, h3, h4, h5, h6⟩ := h
  refine ⟨h1, ?_, h3, ?_, h5, h6⟩
  · rw [h2]; simp only [World.afterFetches]; omega
  · rw [h4]
    simp [World.afterFetches, List.replicate_succ]

/-- The loop of `processRequest` ends within `MAX_RETRIES - retries + 1` iterations;
it makes at most `MAX_RETRIES - retries` fetches and at most one submission, which comes
last; it throws only when every attempt failed and line 97 rejects the id. -/
theorem loop_total (env : Env) (id c : Val) :
    ∀ (fuel r : Nat) (w : World), env.MAX_RETRIES - r < fuel →
      ∃ cpl w1 k s, processRequestLoop env id c fuel r w = some (cpl, w1) ∧
        Progress c w w1 k s ∧ r + k ≤ max r env.MAX_RETRIES ∧
        (idOk id = true → cpl = .returned) ∧
        (cpl = .threw → s = [] ∧ r + k = env.MAX_RETRIES) := by
  intro fuel
  induction fuel with
  | zero =>
    intro r w h
    omega
  | succ fuel ih =>
    intro r w h
    by_cases hr : r < env.MAX_RETRIES
    · cases hf : attemptAction env c id w.fetches with
      | some a =>
        have hshape : ∃ price i, a = .submit price c i := by
          unfold attemptAction at hf
          cases hfa : env.fetchAt w.fetches with
          | fail => rw [hfa] at hf; cases hf
          | ok v => rw [hfa] at hf; exact submitArgs_shape c v id a hf
        refine ⟨.returned, _, 1, [a], loop_step_ok env id c fuel r w a hr hf,
          progress_fetch_submit env c w a hshape, ?_, by simp, by simp⟩
        rw [Nat.max_eq_right (by omega)]; omega
      | none =>
        by_cases hlast : r + 1 = env.MAX_RETRIES
        · rw [loop_step_last env id c fuel r w hlast hf, setLatestEthPrice_eq]
          cases hs : submitArgs c (.str "0") id with
          | none =>
            refine ⟨.threw, _, 1, [], rfl, progress_fetch c w, ?_, ?_, ?_⟩
            · rw [Nat.max_eq_right (by omega)]; omega
            · intro hid
              rw [(submitArgs_sentinel_none c id).1 hs] at hid
              cases hid
            · intro _; exact ⟨rfl, hlast⟩
          | some a =>
            refine ⟨.returned, _, 1, [a], rfl,
              progress_fetch_submit env c w a (submitArgs_shape c _ id a hs), ?_, by simp,
              by simp⟩
            rw [Nat.max_eq_right (by omega)]; omega
        · rw [loop_step_fail env id c fuel r w (by omega) hf]
          obtain ⟨cpl, w1, k, s, h1, h2, h3, h4, h5⟩ :=
            ih (r + 1) (w.afterFetches 1) (by omega)
          refine ⟨cpl, w1, k + 1, s, h1, progress_step c w w1 k s h2, ?_, h4, ?_⟩
          · rw [Nat.max_eq_right (by omega)] at h3
            rw [Nat.max_eq_right (by omega)]; omega
          · intro ht
            obtain ⟨e1, e2⟩ := h5 ht
            exact ⟨e1, by omega⟩
    · refine ⟨.returned, w, 0, [], ?_, ?_, by simp, by simp, by simp⟩
      · rw [processRequestLoop]; simp [hr]
      · exact ⟨rfl, rfl, rfl, by simp, by simp, by simp⟩

theorem handed_append (t u : List Action) : handed (t ++ u) = handed t ++ handed u := by
  induction t with
  | nil => rfl
  | cons a t ih => cases a <;> simp [handed, ih]

theorem handed_replicate_fetch (k : Nat) : handed (List.replicate k .fetch) = [] := by
  induction k with
  | zero => rfl
  | succ k ih => simp [List.replicate_succ, handed, ih]

theorem handed_submits (c : Val) (s : List Action)
    (h : ∀ a ∈ s, ∃ price i, a = .submit price c i) : handed s = [] := by
  induction s with
  | nil => rfl
  | cons a t ih =>
    obtain ⟨price, i, rfl⟩ := h a (by simp)
    simp only [handed]
    exact ih (fun b hb => h b (by simp [hb]))

/-- The behaviour of one call of `processRequest`: it returns or throws (the bound on the
iterations is never reached), and what it does has the shape `Progress` after the
record of its own entry. -/
theorem processRequest_spec (env : Env) (id c : Val) (w : World) :
    ∃ cpl w1 k s, processRequest env id c w = some (cpl, w1) ∧
      w1.pendingRequests = w.pendingRequests ∧ w1.fetches = w.fetches + k ∧
      w1.sends = w.sends + s.length ∧
      w1.trace = w.trace ++ (.start id c :: (List.replicate k .fetch ++ s)) ∧
      s.length ≤ 1 ∧ (∀ a ∈ s, ∃ price i, a = .submit price c i) ∧
      k ≤ env.MAX_RETRIES ∧
      (idOk id = true → cpl = .returned) ∧
      (cpl = .threw → s = [] ∧ k = env.MAX_RETRIES) := by
  obtain ⟨cpl, w1, k, s, h1, ⟨p1, p2, p3, p4, p5, p6⟩, h3, h4, h5⟩ :=
    loop_total env id c (env.MAX_RETRIES + 1) 0
      { w with trace := w.trace ++ [.start id c] } (by omega)
  refine ⟨cpl, w1, k, s, h1, p1, p2, p3, ?_, p5, p6, ?_, h4, ?_⟩
  · rw [p4]; simp
  · simpa using h3
  · intro ht
    obtain ⟨e1, e2⟩ := h5 ht
    exact ⟨e1, by omega⟩

theorem processRequest_handed (env : Env) (id c : Val) (w : World) :
    ∃ cpl w1, processRequest env id c w = some (cpl, w1) ∧
      w1.pendingRequests = w.pendingRequests ∧
      handed w1.trace = handed w.trace ++ [⟨c, id⟩] ∧
      (idOk id = true → cpl = .returned) := by
  obtain ⟨cpl, w1, k, s, h1, h2, _, _, h5, _, h7, _, h9, _⟩ := processRequest_spec env id c w
  refine ⟨cpl, w1, h1, h2, ?_, h9⟩
  rw [h5, handed_append]
  simp [handed, handed_append, handed_replicate_fetch, handed_submits c s h7]

/-- The behaviour of the loop of `processQueue` from a point where `n` requests were
processed: it hands a run of `m` entries from the head of the queue to `processRequest`
and leaves the rest; `m` is all that the chunk allows unless a call throws. -/
theorem queueLoop_spec (env : Env) :
    ∀ (fuel n : Nat) (w : World), env.CHUNK_SIZE - n < fuel →
      ∃ cpl w1 m, processQueueLoop env fuel n w = some (cpl, w1) ∧
        m ≤ min (env.CHUNK_SIZE - n) w.pendingRequests.length ∧
        w1.pendingRequests = w.pendingRequests.drop m ∧
        handed w1.trace = handed w.trace ++ w.pendingRequests.take m ∧
        (cpl = .returned → m = min (env.CHUNK_SIZE - n) w.pendingRequests.length) ∧
        ((∀ r ∈ w.pendingRequests.take (env.CHUNK_SIZE - n), idOk r.id = true) →
          cpl = .returned) := by
  intro fuel
  induction fuel with
  | zero => intro n w h; omega
  | succ fuel ih =>
    intro n w h
    rw [processQueueLoop]
    by_cases hc : w.pendingRequests.length > 0 ∧ n < env.CHUNK_SIZE
    · simp only [hc, and_self, if_true]
      obtain ⟨hlen, hn⟩ := hc
      cases hq : w.pendingRequests with
      | nil => rw [hq] at hlen; simp at hlen
      | cons req rest =>
        obtain ⟨cpl, w1, h1, h2, h3, h4⟩ :=
          processRequest_handed env req.id req.callerAddress { w with pendingRequests := rest }
        have hreq : (⟨req.callerAddress, req.id⟩ : Request) = req := by cases req; rfl
        rw [hreq] at h3
        simp only [h1]
        cases cpl with
        | threw =>
          refine ⟨.threw, w1, 1, rfl, ?_, ?_, ?_, by simp, ?_⟩
          · simp only [List.length_cons]; omega
          · simpa using h2
          · simpa using h3
          · intro hall
            have hid : idOk req.id = true := by
              apply hall
              rw [show env.CHUNK_SIZE - n = (env.CHUNK_SIZE - n - 1) + 1 by omega]
              simp
            cases h4 hid
        | returned =>
          obtain ⟨cpl2, w2, m, e1, e2, e3, e4, e5, e6⟩ := ih (n + 1) w1 (by omega)
          rw [h2] at e2 e3 e4 e5 e6
          simp only at e2 e3 e4 e5 e6
          refine ⟨cpl2, w2, m + 1, e1, ?_, ?_, ?_, ?_, ?_⟩
          · simp only [List.length_cons]; omega
          · simpa using e3
          · rw [e4, h3]; simp
          · intro hr
            have := e5 hr
            simp only [List.length_cons]; omega
          · intro hall
            apply e6
            intro r hr
            apply hall
            rw [show env.CHUNK_SIZE - n = (env.CHUNK_SIZE - (n + 1)) + 1 by omega]
            simp [hr]
    · simp only [hc, if_false]
      refine ⟨.returned, w, 0, rfl, by simp, by simp, by simp, ?_, by simp⟩
      intro _
      by_cases hl : w.pendingRequests.length > 0
      · have : ¬ n < env.CHUNK_SIZE := fun hn => hc ⟨hl, hn⟩
        omega
      · omega

/-- All attempts fail (the fetch throws, or lines 94 to 97 throw on what it returned):
after `MAX_RETRIES` fetches the `catch` block writes the sentinel back. -/
theorem processRequest_all_fail (env : Env) (id c : Val) (w : World)
    (hM : 1 ≤ env.MAX_RETRIES)
    (hf : ∀ i, i < env.MAX_RETRIES → attemptAction env c id (w.fetches + i) = none) :
    processRequest env id c w =
      some (setLatestEthPrice env c (.str "0") id
        (World.afterFetches env.MAX_RETRIES
          { w with trace := w.trace ++ [.start id c] })) := by
  obtain ⟨j, hj⟩ : ∃ j, env.MAX_RETRIES = j + 1 := ⟨env.MAX_RETRIES - 1, by omega⟩
  have h1 := loop_fail_run env id c j 2 0 { w with trace := w.trace ++ [.start id c] }
    (by omega) (fun i hi => hf i (by omega))
  have h2 := loop_step_last env id c 1 (0 + j)
    (World.afterFetches j { w with trace := w.trace ++ [.start id c] }) (by omega)
    (by simpa [World.afterFetches] using hf j (by omega))
  unfold processRequest
  rw [show env.MAX_RETRIES + 1 = 2 + j by omega, h1]
  rw [afterFetches_succ', ← hj] at h2
  exact h2

/-- The first `j` attempts fail and the next one goes through with the submission `a`:
`j + 1` fetches are made and then that one submission. -/
theorem processRequest_first_ok (env : Env) (id c : Val) (w : World) (j : Nat) (a : Action)
    (hj : j < env.MAX_RETRIES)
    (hf : ∀ i, i < j → attemptAction env c id (w.fetches + i) = none)
    (ha : attemptAction env c id (w.fetches + j) = some a) :
    processRequest env id c w =
      some (.returned,
        (World.afterFetches (j + 1)
          { w with trace := w.trace ++ [.start id c] }).afterSubmit env a) := by
  have h1 := loop_fail_run env id c j (env.MAX_RETRIES - j + 1) 0
    { w with trace := w.trace ++ [.start id c] } (by omega) (fun i hi => hf i hi)
  have h2 := loop_step_ok env id c (env.MAX_RETRIES - j) (0 + j)
    (World.afterFetches j { w with trace := w.trace ++ [.start id c] }) a (by omega)
    (by simpa [World.afterFetches] using ha)
  unfold processRequest
  rw [show env.MAX_RETRIES + 1 = (env.MAX_RETRIES - j + 1) + j by omega, h1]
  rw [afterFetches_succ'] at h2
  exact h2

/-! ### Parsing decimal strings -/

theorem replaceFirstDot_eq_filter (l : List Char) (h : l.count '.' ≤ 1) :
    replaceFirstDot l = l.filter (fun ch => ch != '.') := by
  induction l with
  | nil => rfl
  | cons c cs ih =>
    by_cases hc : c = '.'
    · subst hc
      have h0 : cs.count '.' = 0 := by
        rw [List.count_cons_self] at h; omega
      have hnot : ∀ x ∈ cs, (x != '.') = true := by
        intro x hx
        have : x ≠ '.' := fun e => by
          subst e
          exact (List.count_eq_zero.1 h0) hx
        simpa using this
      simp [replaceFirstDot, List.filter_eq_self.2 hnot]
    · have hle : cs.count '.' ≤ 1 := by
        rw [List.count_cons_of_ne (Ne.symm hc)] at h; exact h
      simp [replaceFirstDot, hc, ih hle]

theorem digitOf_dec (ch : Char) (h : isDecDigit ch = true) :
    digitOf 10 ch = some (ch.toNat - 48) := by
  simp only [isDecDigit, Bool.and_eq_true, decide_eq_true_eq] at h
  simp [digitOf, h.1, h.2]

theorem readDigits_dec (ds : List Char) (h : ∀ ch ∈ ds, isDecDigit ch = true) :
    ∀ (acc : Nat) (seen : Bool), readDigits 10 ds acc seen =
      (ds.foldl (fun a ch => a * 10 + (ch.toNat - 48)) acc, seen || !ds.isEmpty) := by
  induction ds with
  | nil => intro acc seen; simp [readDigits]
  | cons c cs ih =>
    intro acc seen
    rw [readDigits, digitOf_dec c (h c (by simp))]
    simp only [List.foldl_cons]
    rw [ih (fun ch hch => h ch (by simp [hch]))]
    simp

theorem parseInt_digits (ds : List Char) (h : ∀ ch ∈ ds, isDecDigit ch = true) :
    parseInt (String.mk ds) = if ds = [] then none else some (digitsValue ds : Int) := by
  cases ds with
  | nil => decide
  | cons c cs =>
    have hc := h c (by simp)
    simp only [isDecDigit, Bool.and_eq_true, decide_eq_true_eq] at hc
    have hws : isStrWhiteSpace c = false := by
      simp only [isStrWhiteSpace]
      simp only [Bool.or_eq_false_iff, Bool.and_eq_false_iff, decide_eq_false_iff_not]
      omega
    have hminus : c ≠ '-' := by
      intro e; subst e; revert hc; decide
    have hplus : c ≠ '+' := by
      intro e; subst e; revert hc; decide
    have hsign : stripSign (c :: cs) = (1, c :: cs) := by
      unfold stripSign
      split
      · next r e => simp only [List.cons.injEq] at e; exact absurd e.1 hminus
      · next r e => simp only [List.cons.injEq] at e; exact absurd e.1 hplus
      · rfl
    have hx : ∀ d ds1, cs = d :: ds1 → d ≠ 'x' ∧ d ≠ 'X' := by
      intro d ds1 e
      have hd := h d (by simp [e])
      simp only [isDecDigit, Bool.and_eq_true, decide_eq_true_eq] at hd
      constructor
      · intro e2; subst e2; revert hd; decide
      · intro e2; subst e2; revert hd; decide
    have hradix : stripRadix (c :: cs) = (10, c :: cs) := by
      unfold stripRadix
      split
      · next r e =>
        simp only [List.cons.injEq] at e
        exact absurd rfl (hx _ _ e.2).1
      · next r e =>
        simp only [List.cons.injEq] at e
        exact absurd rfl (hx _ _ e.2).2
      · rfl
    have hrd := readDigits_dec (c :: cs) h 0 false
    simp only [parseInt, trimStart, hws, Bool.false_eq_true, if_false, hsign, hradix, hrd]
    simp [digitsValue]

theorem newBN_parseInt_digits (ds : List Char) (h : ∀ ch ∈ ds, isDecDigit ch = true)
    (hv : digitsValue ds < 2 ^ 53) :
    newBN (parseInt (String.mk ds)) = some (digitsValue ds : Int) := by
  rw [parseInt_digits ds h]
  by_cases he : ds = []
  · subst he; decide
  · simp only [he, if_false, newBN, Option.getD_some, Int.natAbs_ofNat]
    simp only [ite_eq_left_iff, not_lt, reduceCtorEq, imp_false, not_le]
    exact hv

theorem newBN_parseInt_digits_none (ds : List Char) (h : ∀ ch ∈ ds, isDecDigit ch = true)
    (hv : 2 ^ 53 ≤ digitsValue ds) :
    newBN (parseInt (String.mk ds)) = none := by
  rw [parseInt_digits ds h]
  by_cases he : ds = []
  · subst he; revert hv; decide
  · simp only [he, if_false, newBN, Option.getD_some, Int.natAbs_ofNat]
    simp; omega

/-- Lines 94 to 96 on a decimal price string: the digits are read exactly when the
integer they denote is below `2^53`, and the constructor throws otherwise. -/
theorem normalisePrice_decimal (p : String) (hp : isDecimalPrice p = true) :
    normalisePrice (.str p) =
      if priceInteger p < 2 ^ 53 then some ((priceInteger p : Int) * 10 ^ 10) else none := by
  simp only [isDecimalPrice, Bool.and_eq_true, List.all_eq_true, Bool.or_eq_true,
    decide_eq_true_eq, beq_iff_eq] at hp
  obtain ⟨hall, hcount⟩ := hp
  have hdig : ∀ ch ∈ p.data.filter (fun ch => ch != '.'), isDecDigit ch = true := by
    intro ch hch
    simp only [List.mem_filter, bne_iff_ne, ne_eq] at hch
    rcases hall ch hch.1 with h1 | h1
    · exact h1
    · exact absurd h1 hch.2
  have hmul : newBN (some (10 ^ 10)) = some (10 ^ 10) := by decide
  unfold normalisePrice
  simp only [hmul, replaceFirstDot_eq_filter p.data hcount]
  by_cases hv : priceInteger p < 2 ^ 53
  · rw [newBN_parseInt_digits _ hdig hv, if_pos hv]
    rfl
  · rw [newBN_parseInt_digits_none _ hdig (by unfold priceInteger at hv; omega), if_neg hv]

theorem newBN_parseInt_decimalInteger (s : String) (hs : isDecimalInteger s = true)
    (hv : digitsValue s.data < 2 ^ 53) :
    newBN (parseInt s) = some (digitsValue s.data : Int) := by
  simp only [isDecimalInteger, List.all_eq_true] at hs
  exact newBN_parseInt_digits s.data hs hv

/-! ### Submission failures change the console output only -/

theorem eraseLog_afterFetches (w w1 : World) (k : Nat) (h : w.eraseLog = w1.eraseLog) :
    (w.afterFetches k).eraseLog = (w1.afterFetches k).eraseLog := by
  cases w; cases w1
  simp only [World.eraseLog, World.mk.injEq, and_true] at h
  obtain ⟨h1, h2, h3, h4⟩ := h
  simp [World.eraseLog, World.afterFetches, h1, h2, h3, h4]

theorem eraseLog_afterSubmit (env1 env2 : Env) (a : Action) (w w1 : World)
    (h : w.eraseLog = w1.eraseLog) :
    (w.afterSubmit env1 a).eraseLog = (w1.afterSubmit env2 a).eraseLog := by
  cases w; cases w1
  simp only [World.eraseLog, World.mk.injEq, and_true] at h
  obtain ⟨h1, h2, h3, h4⟩ := h
  simp [World.eraseLog, World.afterSubmit, h1, h2, h3, h4]

theorem eraseLog_fetches (w w1 : World) (h : w.eraseLog = w1.eraseLog) :
    w.fetches = w1.fetches := by
  cases w; cases w1
  simp only [World.eraseLog, World.mk.injEq, and_true] at h
  exact h.2.1

theorem setLatestEthPrice_butLog (env1 env2 : Env) (c p id : Val) (w w1 : World)
    (h : w.eraseLog = w1.eraseLog) :
    butLog (some (setLatestEthPrice env1 c p id w)) =
      butLog (some (setLatestEthPrice env2 c p id w1)) := by
  rw [setLatestEthPrice_eq, setLatestEthPrice_eq]
  cases submitArgs c p id with
  | none => simp [butLog, h]
  | some a => simp [butLog, eraseLog_afterSubmit env1 env2 a w w1 h]

theorem loop_butLog (env1 env2 : Env) (id c : Val)
    (hM : env1.MAX_RETRIES = env2.MAX_RETRIES) (hF : env1.fetchAt = env2.fetchAt) :
    ∀ (fuel r : Nat) (w w1 : World), w.eraseLog = w1.eraseLog →
      butLog (processRequestLoop env1 id c fuel r w) =
        butLog (processRequestLoop env2 id c fuel r w1) := by
  intro fuel
  induction fuel with
  | zero => intro r w w1 _; rfl
  | succ fuel ih =>
    intro r w w1 h
    have hatt : attemptAction env1 c id w.fetches = attemptAction env2 c id w1.fetches := by
      unfold attemptAction
      rw [hF, eraseLog_fetches w w1 h]
    by_cases hr : r < env1.MAX_RETRIES
    · cases hf : attemptAction env1 c id w.fetches with
      | some a =>
        rw [loop_step_ok env1 id c fuel r w a hr hf,
          loop_step_ok env2 id c fuel r w1 a (hM ▸ hr) (hatt ▸ hf)]
        simp [butLog, eraseLog_afterSubmit env1 env2 a _ _ (eraseLog_afterFetches w w1 1 h)]
      | none =>
        by_cases hlast : r + 1 = env1.MAX_RETRIES
        · rw [loop_step_last env1 id c fuel r w hlast hf,
            loop_step_last env2 id c fuel r w1 (hM ▸ hlast) (hatt ▸ hf)]
          exact setLatestEthPrice_butLog env1 env2 c _ id _ _ (eraseLog_afterFetches w w1 1 h)
        · rw [loop_step_fail env1 id c fuel r w (by omega) hf,
            loop_step_fail env2 id c fuel r w1 (by omega) (hatt ▸ hf)]
          exact ih (r + 1) _ _ (eraseLog_afterFetches w w1 1 h)
    · have hr2 : ¬ r < env2.MAX_RETRIES := hM ▸ hr
      rw [processRequestLoop, processRequestLoop]
      simp [hr, hr2, butLog, h]

theorem processRequest_butLog (env1 env2 : Env) (id c : Val)
    (hM : env1.MAX_RETRIES = env2.MAX_RETRIES) (hF : env1.fetchAt = env2.fetchAt)
    (w w1 : World) (h : w.eraseLog = w1.eraseLog) :
    butLog (processRequest env1 id c w) = butLog (processRequest env2 id c w1) := by
  unfold processRequest
  rw [hM]
  apply loop_butLog env1 env2 id c hM hF
  cases w; cases w1
  simp only [World.eraseLog, World.mk.injEq, and_true] at h
  obtain ⟨h1, h2, h3, h4⟩ := h
  simp [World.eraseLog, h1, h2, h3, h4]

theorem butLog_eq_some (r1 r2 : Option (Completion × World)) (h : butLog r1 = butLog r2)
    (cpl : Completion) (w : World) (h1 : r1 = some (cpl, w)) :
    ∃ w1, r2 = some (cpl, w1) ∧ w.eraseLog = w1.eraseLog := by
  subst h1
  cases r2 with
  | none => simp [butLog] at h
  | some x =>
    obtain ⟨c2, w2⟩ := x
    simp only [butLog, Option.map_some', Option.some.injEq, Prod.mk.injEq] at h
    exact ⟨w2, by rw [h.1], h.2⟩

theorem queueLoop_butLog (env1 env2 : Env)
    (hC : env1.CHUNK_SIZE = env2.CHUNK_SIZE)
    (hM : env1.MAX_RETRIES = env2.MAX_RETRIES) (hF : env1.fetchAt = env2.fetchAt) :
    ∀ (fuel n : Nat) (w w1 : World), w.eraseLog = w1.eraseLog →
      butLog (processQueueLoop env1 fuel n w) = butLog (processQueueLoop env2 fuel n w1) := by
  intro fuel
  induction fuel with
  | zero => intro n w w1 _; rfl
  | succ fuel ih =>
    intro n w w1 h
    have hq : w.pendingRequests = w1.pendingRequests := by
      cases w; cases w1
      simp only [World.eraseLog, World.mk.injEq, and_true] at h
      exact h.1
    rw [processQueueLoop, processQueueLoop, ← hq, ← hC]
    by_cases hc : w.pendingRequests.length > 0 ∧ n < env1.CHUNK_SIZE
    · simp only [hc, and_self, if_true]
      cases hqq : w.pendingRequests with
      | nil => simp [butLog, h]
      | cons req rest =>
        simp only
        have hrest : World.eraseLog { w with pendingRequests := rest } =
            World.eraseLog { w1 with pendingRequests := rest } := by
          cases w; cases w1
          simp only [World.eraseLog, World.mk.injEq, and_true] at h
          obtain ⟨h1, h2, h3, h4⟩ := h
          simp [World.eraseLog, h2, h3, h4]
        have hpr := processRequest_butLog env1 env2 req.id req.callerAddress hM hF _ _ hrest
        obtain ⟨cpl, wa, _, _, e1, _⟩ :=
          processRequest_spec env1 req.id req.callerAddress { w with pendingRequests := rest }
        obtain ⟨wb, e2, e3⟩ := butLog_eq_some _ _ hpr cpl wa e1
        rw [e1, e2]
        cases cpl with
        | threw => simp [butLog, e3]
        | returned => exact ih (n + 1) wa wb e3
    · simp [hc, butLog, h]

/-! ### Ticks -/

theorem take_min_length (l : List Request) (n : Nat) :
    l.take (min n l.length) = l.take n := by
  rcases Nat.le_total n l.length with h | h
  · rw [Nat.min_eq_left h]
  · rw [Nat.min_eq_right h, List.take_of_length_le h, List.take_of_length_le (Nat.le_refl _)]

theorem drop_min_length (l : List Request) (n : Nat) :
    l.drop (min n l.length) = l.drop n := by
  rcases Nat.le_total n l.length with h | h
  · rw [Nat.min_eq_left h]
  · rw [Nat.min_eq_right h, List.drop_of_length_le h, List.drop_of_length_le (Nat.le_refl _)]

/-- One tick in which no call of `processRequest` throws: the chunk at the head of the
queue is handed over, in order, and the rest of the queue stays. -/
theorem processQueue_ok_spec (env : Env) (w : World)
    (hid : ∀ r ∈ w.pendingRequests.take env.CHUNK_SIZE, idOk r.id = true) :
    ∃ w1, processQueue env w = some (.returned, w1) ∧
      handed w1.trace = handed w.trace ++ w.pendingRequests.take env.CHUNK_SIZE ∧
      w1.pendingRequests = w.pendingRequests.drop env.CHUNK_SIZE := by
  obtain ⟨cpl, w1, m, h1, _, h3, h4, h5, h6⟩ :=
    queueLoop_spec env (env.CHUNK_SIZE + 1) 0 w (by omega)
  have hc : cpl = .returned := h6 (by simpa using hid)
  subst hc
  have hm := h5 rfl
  simp only [Nat.sub_zero] at hm
  subst hm
  refine ⟨w1, h1, ?_, ?_⟩
  · rw [h4, take_min_length]
  · rw [h3, drop_min_length]

theorem ticks_snoc (env : Env) :
    ∀ (k : Nat) (w wk : World), ticks env k w = some (.returned, wk) →
      ticks env (k + 1) w = processQueue env wk := by
  intro k
  induction k with
  | zero =>
    intro w wk h
    simp only [ticks, Option.some.injEq, Prod.mk.injEq, true_and] at h
    subst h
    rw [ticks]
    cases hq : processQueue env w with
    | none => rfl
    | some x =>
      obtain ⟨cpl, w1⟩ := x
      cases cpl <;> simp [ticks]
  | succ k ih =>
    intro w wk h
    rw [ticks] at h
    rw [ticks]
    cases hq : processQueue env w with
    | none => rw [hq] at h; simp at h
    | some x =>
      obtain ⟨cpl, w1⟩ := x
      cases cpl with
      | threw => rw [hq] at h; simp at h
      | returned =>
        rw [hq] at h
        simp only at h ⊢
        exact ih w1 wk h

/-- Successive ticks over a queue whose handled entries have ids that line 97 accepts:
after `k` ticks the first `k * CHUNK_SIZE` entries were handed over, in order. -/
theorem ticks_spec (env : Env) :
    ∀ (k : Nat) (w : World),
      (∀ r ∈ w.pendingRequests.take (k * env.CHUNK_SIZE), idOk r.id = true) →
      ∃ w1, ticks env k w = some (.returned, w1) ∧
        handed w1.trace = handed w.trace ++ w.pendingRequests.take (k * env.CHUNK_SIZE) ∧
        w1.pendingRequests = w.pendingRequests.drop (k * env.CHUNK_SIZE) := by
  intro k
  induction k with
  | zero => intro w _; exact ⟨w, rfl, by simp, by simp⟩
  | succ k ih =>
    intro w hid
    have hsplit : (k + 1) * env.CHUNK_SIZE = env.CHUNK_SIZE + k * env.CHUNK_SIZE := by
      rw [Nat.succ_mul, Nat.add_comm]
    rw [hsplit] at hid
    rw [hsplit]
    obtain ⟨w1, h1, h2, h3⟩ := processQueue_ok_spec env w (fun r hr =>
      hid r (List.take_subset_take_left _ (Nat.le_add_right _ _) hr))
    obtain ⟨w2, e1, e2, e3⟩ := ih w1 (by
      intro r hr
      rw [h3] at hr
      apply hid r
      rw [List.take_add]
      exact List.mem_append_right _ hr)
    refine ⟨w2, ?_, ?_, ?_⟩
    · rw [ticks, h1]; exact e1
    · rw [e2, h2, h3, List.take_add, List.append_assoc]
    · rw [e3, h3, List.drop_drop]

/-! ### A rejected price counts as a failed fetch -/

theorem attemptAction_rejectedAsFailed (env : Env) (c id : Val) (n : Nat) :
    attemptAction (env.rejectedAsFailed c id) c id n = attemptAction env c id n := by
  simp only [attemptAction, Env.rejectedAsFailed]
  cases hf : env.fetchAt n with
  | fail => rfl
  | ok v =>
    cases hs : submitArgs c v id with
    | none => simp only [hs]
    | some a => simp only [hs]

theorem loop_congr (env1 env2 : Env) (id c : Val)
    (hM : env1.MAX_RETRIES = env2.MAX_RETRIES) (hS : env1.sendAt = env2.sendAt)
    (hA : ∀ n, attemptAction env1 c id n = attemptAction env2 c id n) :
    ∀ (fuel r : Nat) (w : World),
      processRequestLoop env1 id c fuel r w = processRequestLoop env2 id c fuel r w := by
  intro fuel
  induction fuel with
  | zero => intro r w; rfl
  | succ fuel ih =>
    intro r w
    by_cases hr : r < env1.MAX_RETRIES
    · cases hf : attemptAction env1 c id w.fetches with
      | some a =>
        rw [loop_step_ok env1 id c fuel r w a hr hf,
          loop_step_ok env2 id c fuel r w a (hM ▸ hr) (hA _ ▸ hf)]
        simp [World.afterSubmit, hS]
      | none =>
        by_cases hlast : r + 1 = env1.MAX_RETRIES
        · rw [loop_step_last env1 id c fuel r w hlast hf,
            loop_step_last env2 id c fuel r w (hM ▸ hlast) (hA _ ▸ hf)]
          simp [setLatestEthPrice_eq, World.afterSubmit, hS]
        · rw [loop_step_fail env1 id c fuel r w (by omega) hf,
            loop_step_fail env2 id c fuel r w (by omega) (hA _ ▸ hf)]
          exact ih (r + 1) _
    · have hr2 : ¬ r < env2.MAX_RETRIES := hM ▸ hr
      rw [processRequestLoop, processRequestLoop]
      simp [hr, hr2]

theorem submitArgs_eq_none_iff (c p id : Val) :
    submitArgs c p id = none ↔ (normalisePrice p = none ∨ idOk id = false) := by
  unfold submitArgs idOk
  cases normalisePrice p <;> cases newBN (parseInt id.toJSString) <;> simp

/-! ### Every request of a tick gets its one submission -/

/-- The loop of `processRequest` for an id that line 97 accepts, entered with attempts
left: it returns after one submission. -/
theorem loop_submits_once (env : Env) (id c : Val) (hid : idOk id = true) :
    ∀ (fuel r : Nat) (w : World), env.MAX_RETRIES - r < fuel → r < env.MAX_RETRIES →
      ∃ w1 k a, processRequestLoop env id c fuel r w = some (.returned, w1) ∧
        Progress c w w1 k [a] ∧ r + k ≤ env.MAX_RETRIES := by
  intro fuel
  induction fuel with
  | zero => intro r w h _; omega
  | succ fuel ih =>
    intro r w h hr
    cases hf : attemptAction env c id w.fetches with
    | some a =>
      have hshape : ∃ price i, a = .submit price c i := by
        unfold attemptAction at hf
        cases hfa : env.fetchAt w.fetches with
        | fail => rw [hfa] at hf; cases hf
        | ok v => rw [hfa] at hf; exact submitArgs_shape c v id a hf
      exact ⟨_, 1, a, loop_step_ok env id c fuel r w a hr hf,
        progress_fetch_submit env c w a hshape, by omega⟩
    | none =>
      by_cases hlast : r + 1 = env.MAX_RETRIES
      · rw [loop_step_last env id c fuel r w hlast hf, setLatestEthPrice_eq]
        cases hs : submitArgs c (.str "0") id with
        | none =>
          rw [(submitArgs_sentinel_none c id).1 hs] at hid
          cases hid
        | some a =>
          exact ⟨_, 1, a, rfl,
            progress_fetch_submit env c w a (submitArgs_shape c _ id a hs), by omega⟩
      · rw [loop_step_fail env id c fuel r w (by omega) hf]
        obtain ⟨w1, k, a, h1, h2, h3⟩ := ih (r + 1) (w.afterFetches 1) (by omega) (by omega)
        exact ⟨w1, k + 1, a, h1, progress_step c w w1 k [a] h2, by omega⟩

/-- One call of `processRequest` for an id that line 97 accepts: it returns, and its
calls form a `RequestSegment`. -/
theorem processRequest_segment (env : Env) (r : Request) (w : World)
    (hid : idOk r.id = true) :
    ∃ w1 seg, processRequest env r.id r.callerAddress w = some (.returned, w1) ∧
      RequestSegment env r seg ∧ w1.trace = w.trace ++ seg ∧
      w1.pendingRequests = w.pendingRequests := by
  by_cases hM : 1 ≤ env.MAX_RETRIES
  · obtain ⟨w1, k, a, h1, ⟨p1, _, _, p4, _, p6⟩, h3⟩ :=
      loop_submits_once env r.id r.callerAddress hid (env.MAX_RETRIES + 1) 0
        { w with trace := w.trace ++ [.start r.id r.callerAddress] } (by omega) (by omega)
    refine ⟨w1, _, h1, ⟨k, [a], rfl, by omega, by simp, fun _ => rfl, p6⟩, ?_, p1⟩
    rw [p4]; simp
  · obtain ⟨cpl, w1, k, s, h1, h2, _, _, h5, h6, h7, h8, h9, _⟩ :=
      processRequest_spec env r.id r.callerAddress w
    have hc := h9 hid
    subst hc
    exact ⟨w1, _, h1, ⟨k, s, rfl, h8, h6, fun h => absurd h hM, h7⟩, h5, h2⟩

/-- The loop of `processQueue` when line 97 accepts the ids of the chunk: it returns, it
hands over the whole chunk, and its calls are one `RequestSegment` after another, in the
order of the queue. -/
theorem queueLoop_segments (env : Env) :
    ∀ (fuel n : Nat) (w : World), env.CHUNK_SIZE - n < fuel →
      (∀ r ∈ w.pendingRequests.take (env.CHUNK_SIZE - n), idOk r.id = true) →
      ∃ w1 segs, processQueueLoop env fuel n w = some (.returned, w1) ∧
        w1.trace = w.trace ++ segs.flatten ∧
        List.Forall₂ (RequestSegment env) (w.pendingRequests.take (env.CHUNK_SIZE - n)) segs ∧
        w1.pendingRequests = w.pendingRequests.drop (env.CHUNK_SIZE - n) := by
  intro fuel
  induction fuel with
  | zero => intro n w h; omega
  | succ fuel ih =>
    intro n w h hid
    rw [processQueueLoop]
    by_cases hc : w.pendingRequests.length > 0 ∧ n < env.CHUNK_SIZE
    · simp only [hc, and_self, if_true]
      obtain ⟨hlen, hn⟩ := hc
      have hsplit : env.CHUNK_SIZE - n = (env.CHUNK_SIZE - (n + 1)) + 1 := by omega
      rw [hsplit] at hid
      rw [hsplit]
      cases hq : w.pendingRequests with
      | nil => rw [hq] at hlen; simp at hlen
      | cons req rest =>
        rw [hq] at hid
        simp only [List.take_succ_cons, List.drop_succ_cons] at hid ⊢
        obtain ⟨w1, seg, h1, h2, h3, h4⟩ :=
          processRequest_segment env req { w with pendingRequests := rest }
            (hid req (by simp))
        simp only [h1]
        obtain ⟨w2, segs, e1, e2, e3, e4⟩ := ih (n + 1) w1 (by omega) (by
          intro r hr
          rw [h4] at hr
          exact hid r (by simp [hr]))
        rw [h4] at e3 e4
        refine ⟨w2, seg :: segs, e1, ?_, List.Forall₂.cons h2 e3, e4⟩
        rw [e2, h3]
        simp
    · simp only [hc, if_false]
      refine ⟨w, [], rfl, by simp, ?_, ?_⟩
      · by_cases hl : w.pendingRequests.length > 0
        · have h0 : env.CHUNK_SIZE - n = 0 := by
            have : ¬ n < env.CHUNK_SIZE := fun hn => hc ⟨hl, hn⟩
            omega
          rw [h0]; simp
        · have hnil : w.pendingRequests = [] := by
            cases hq : w.pendingRequests with
            | nil => rfl
            | cons a t => rw [hq] at hl; simp at hl
          rw [hnil]; simp
      · by_cases hl : w.pendingRequests.length > 0
        · have h0 : env.CHUNK_SIZE - n = 0 := by
            have : ¬ n < env.CHUNK_SIZE := fun hn => hc ⟨hl, hn⟩
            omega
          rw [h0]; simp
        · have hnil : w.pendingRequests = [] := by
            cases hq : w.pendingRequests with
            | nil => rfl
            | cons a t => rw [hq] at hl; simp at hl
          rw [hnil]; simp

/-! ## The queue: `processQueue` and successive ticks -/

/-- C1 (as amended).  For every queue and every `CHUNK_SIZE`, when line 97 accepts the id
of each of the first `CHUNK_SIZE` entries, one call of `processQueue` returns, hands to
`processRequest` exactly the first `min CHUNK_SIZE |q|` entries in insertion order, and
leaves the queue equal to the remaining entries in their order; on an empty queue it
changes nothing. -/
theorem processQueue_hands_chunk (env : Env) (w : World)
    (hid : ∀ r ∈ w.pendingRequests.take env.CHUNK_SIZE, idOk r.id = true) :
    ∃ w1, processQueue env w = some (.returned, w1) ∧
      handed w1.trace = handed w.trace ++
        w.pendingRequests.take (min env.CHUNK_SIZE w.pendingRequests.length) ∧
      w1.pendingRequests =
        w.pendingRequests.drop (min env.CHUNK_SIZE w.pendingRequests.length) ∧
      (w.pendingRequests = [] → w1 = w) := by
  obtain ⟨w1, h1, h2, h3⟩ := processQueue_ok_spec env w hid
  refine ⟨w1, h1, ?_, ?_, ?_⟩
  · rw [h2, take_min_length]
  · rw [h3, drop_min_length]
  · intro hq
    have h0 : processQueue env w = some (.returned, w) := by
      simp [processQueue, processQueueLoop, hq]
    rw [h0] at h1
    simp only [Option.some.injEq, Prod.mk.injEq, true_and] at h1
    exact h1.symm

/-- C1, an instance: five requests with small ids and `CHUNK_SIZE = 3`. -/
theorem processQueue_hands_chunk_witness :
    (∀ r ∈ (World.ofQueue fiveQueue).pendingRequests.take liveEnv.CHUNK_SIZE,
      idOk r.id = true) ∧
    ∃ w1, processQueue liveEnv (World.ofQueue fiveQueue) = some (.returned, w1) ∧
      handed w1.trace = handed (World.ofQueue fiveQueue).trace ++
        (World.ofQueue fiveQueue).pendingRequests.take
          (min liveEnv.CHUNK_SIZE (World.ofQueue fiveQueue).pendingRequests.length) ∧
      w1.pendingRequests =
        (World.ofQueue fiveQueue).pendingRequests.drop
          (min liveEnv.CHUNK_SIZE (World.ofQueue fiveQueue).pendingRequests.length) ∧
      ((World.ofQueue fiveQueue).pendingRequests = [] → w1 = World.ofQueue fiveQueue) :=
  ⟨by decide, processQueue_hands_chunk liveEnv (World.ofQueue fiveQueue) (by decide)⟩

/-- C1 as stated fails: with `CHUNK_SIZE = 3` and a queue of two requests whose first id
is `2^53 + 1`, the call for the first request throws out of `processQueue`; only that
request was handed over and the second one stays in the queue, where the claim has
both handed over and the queue empty. -/
theorem processQueue_throw_cuts_batch :
    queueView (processQueue liveEnv (World.ofQueue cutQueue)) =
      some (.threw, [⟨.str "0xA", .str "9007199254740993"⟩], [⟨.str "0xB", .str "2"⟩]) ∧
    cutQueue.take (min liveEnv.CHUNK_SIZE cutQueue.length) ≠
      [⟨.str "0xA", .str "9007199254740993"⟩] ∧
    cutQueue.drop (min liveEnv.CHUNK_SIZE cutQueue.length) ≠ [⟨.str "0xB", .str "2"⟩] := by
  decide

/-- C2 (as amended).  For every queue, every `CHUNK_SIZE` and every number `k` of ticks
with nothing enqueued in between, when line 97 accepts the id of each of the first
`k * CHUNK_SIZE` entries, the `k` ticks all return and hand to `processRequest` exactly
the first `min (k * CHUNK_SIZE) |q|` entries, each once and in insertion order, leaving
the rest of the queue; tick `i + 1` hands over the entries `i * CHUNK_SIZE` up to
`(i + 1) * CHUNK_SIZE - 1`. -/
theorem ticks_hand_in_order (env : Env) (w : World) (k : Nat)
    (hid : ∀ r ∈ w.pendingRequests.take (k * env.CHUNK_SIZE), idOk r.id = true) :
    (∃ w1, ticks env k w = some (.returned, w1) ∧
      handed w1.trace = handed w.trace ++
        w.pendingRequests.take (min (k * env.CHUNK_SIZE) w.pendingRequests.length) ∧
      w1.pendingRequests =
        w.pendingRequests.drop (min (k * env.CHUNK_SIZE) w.pendingRequests.length)) ∧
    ∀ i, i < k → ∃ wi wj, ticks env i w = some (.returned, wi) ∧
      processQueue env wi = some (.returned, wj) ∧
      ticks env (i + 1) w = some (.returned, wj) ∧
      handed wj.trace = handed wi.trace ++
        (w.pendingRequests.drop (i * env.CHUNK_SIZE)).take env.CHUNK_SIZE := by
  constructor
  · obtain ⟨w1, h1, h2, h3⟩ := ticks_spec env k w hid
    exact ⟨w1, h1, by rw [h2, take_min_length], by rw [h3, drop_min_length]⟩
  · intro i hi
    have hle : (i + 1) * env.CHUNK_SIZE ≤ k * env.CHUNK_SIZE :=
      Nat.mul_le_mul_right _ (by omega)
    have hsplit : (i + 1) * env.CHUNK_SIZE = i * env.CHUNK_SIZE + env.CHUNK_SIZE :=
      Nat.succ_mul _ _
    obtain ⟨wi, h1, _, h3⟩ := ticks_spec env i w (fun r hr =>
      hid r (List.take_subset_take_left _ (by omega) hr))
    obtain ⟨wj, e1, e2, _⟩ := processQueue_ok_spec env wi (by
      intro r hr
      rw [h3] at hr
      apply hid r
      apply List.take_subset_take_left _ hle
      rw [hsplit, List.take_add]
      exact List.mem_append_right _ hr)
    refine ⟨wi, wj, h1, e1, ?_, ?_⟩
    · rw [ticks_snoc env i w wi h1, e1]
    · rw [e2, h3]

/-- C2, an instance: five requests with small ids, `CHUNK_SIZE = 3`, two ticks. -/
theorem ticks_hand_in_order_witness :
    (∀ r ∈ (World.ofQueue fiveQueue).pendingRequests.take (2 * liveEnv.CHUNK_SIZE),
      idOk r.id = true) ∧
    queueView (ticks liveEnv 1 (World.ofQueue fiveQueue)) =
      some (.returned, fiveQueue.take 3, fiveQueue.drop 3) ∧
    queueView (ticks liveEnv 2 (World.ofQueue fiveQueue)) = some (.returned, fiveQueue, []) ∧
    ((∃ w1, ticks liveEnv 2 (World.ofQueue fiveQueue) = some (.returned, w1) ∧
      handed w1.trace = handed (World.ofQueue fiveQueue).trace ++
        (World.ofQueue fiveQueue).pendingRequests.take
          (min (2 * liveEnv.CHUNK_SIZE) (World.ofQueue fiveQueue).pendingRequests.length) ∧
      w1.pendingRequests =
        (World.ofQueue fiveQueue).pendingRequests.drop
          (min (2 * liveEnv.CHUNK_SIZE) (World.ofQueue fiveQueue).pendingRequests.length)) ∧
    ∀ i, i < 2 → ∃ wi wj, ticks liveEnv i (World.ofQueue fiveQueue) = some (.returned, wi) ∧
      processQueue liveEnv wi = some (.returned, wj) ∧
      ticks liveEnv (i + 1) (World.ofQueue fiveQueue) = some (.returned, wj) ∧
      handed wj.trace = handed wi.trace ++
        ((World.ofQueue fiveQueue).pendingRequests.drop (i * liveEnv.CHUNK_SIZE)).take
          liveEnv.CHUNK_SIZE) :=
  ⟨by decide, by decide, by decide,
    ticks_hand_in_order liveEnv (World.ofQueue fiveQueue) 2 (by decide)⟩

/-- C2 as stated fails, on its own scenario: five queued requests and `CHUNK_SIZE = 3`,
the first request with the id `2^53 + 1`.  The first tick throws after handing over
that one request, not three. -/
theorem ticks_first_tick_cut :
    queueView (ticks liveEnv 1 (World.ofQueue cutFiveQueue)) =
      some (.threw, cutFiveQueue.take 1, cutFiveQueue.drop 1) ∧
    cutFiveQueue.take (min (1 * liveEnv.CHUNK_SIZE) cutFiveQueue.length) ≠
      cutFiveQueue.take 1 := by
  decide

/-! ## One request: `processRequest` -/

/-- C3 (as amended).  For every request whose id line 97 accepts (its integer value
being `idInt`) and every `MAX_RETRIES ≥ 1`, when the price source fails at each of the
`MAX_RETRIES` attempts, `processRequest` returns after exactly `MAX_RETRIES` fetches
followed by exactly one submission, whose price is the numeral of the integer 0 (the
normalised sentinel `"0"`), with the caller address of the request and the numeral of
`idInt`. -/
theorem processRequest_sentinel_after_max_retries (env : Env) (id c : Val) (w : World)
    (idInt : Int) (hM : 1 ≤ env.MAX_RETRIES)
    (hfail : ∀ i, i < env.MAX_RETRIES → env.fetchAt (w.fetches + i) = .fail)
    (hid : newBN (parseInt id.toJSString) = some idInt) :
    normalisePrice (.str "0") = some 0 ∧
    ∃ w1, processRequest env id c w = some (.returned, w1) ∧
      w1.trace = w.trace ++ (.start id c :: (List.replicate env.MAX_RETRIES .fetch ++
        [.submit (bnToString 0) c (bnToString idInt)])) ∧
      w1.fetches = w.fetches + env.MAX_RETRIES ∧ w1.sends = w.sends + 1 ∧
      w1.pendingRequests = w.pendingRequests := by
  refine ⟨normalisePrice_sentinel, ?_⟩
  have hatt : ∀ i, i < env.MAX_RETRIES → attemptAction env c id (w.fetches + i) = none := by
    intro i hi
    simp only [attemptAction, hfail i hi]
  rw [processRequest_all_fail env id c w hM hatt, setLatestEthPrice_eq, submitArgs_sentinel,
    hid]
  refine ⟨_, rfl, ?_, rfl, rfl, rfl⟩
  simp only [World.afterSubmit, World.afterFetches, List.append_assoc, List.singleton_append]
  rfl

/-- C3, an instance: the request with id `"1"` from `"0xA"`, five failing fetches. -/
theorem processRequest_sentinel_after_max_retries_witness :
    1 ≤ deadEnv.MAX_RETRIES ∧
    newBN (parseInt (Val.str "1").toJSString) = some 1 ∧
    requestView (processRequest deadEnv (.str "1") (.str "0xA") (World.ofQueue [])) =
      some (.returned, 5, [.submit "0" (.str "0xA") "1"]) ∧
    (normalisePrice (.str "0") = some 0 ∧
    ∃ w1, processRequest deadEnv (.str "1") (.str "0xA") (World.ofQueue []) =
        some (.returned, w1) ∧
      w1.trace = (World.ofQueue []).trace ++ (.start (.str "1") (.str "0xA") ::
        (List.replicate deadEnv.MAX_RETRIES .fetch ++
          [.submit (bnToString 0) (.str "0xA") (bnToString 1)])) ∧
      w1.fetches = (World.ofQueue []).fetches + deadEnv.MAX_RETRIES ∧
      w1.sends = (World.ofQueue []).sends + 1 ∧
      w1.pendingRequests = (World.ofQueue []).pendingRequests) :=
  ⟨by decide, by decide, by decide,
    processRequest_sentinel_after_max_retries deadEnv (.str "1") (.str "0xA")
      (World.ofQueue []) 1 (by decide) (fun _ _ => rfl) (by decide)⟩

/-- C3 as stated fails: for the request with id `2^53 + 1` and a price source that always
fails, `processRequest` makes its five fetches and then throws without any submission,
where the claim has one submission of the sentinel. -/
theorem processRequest_sentinel_rejected_id :
    requestView
        (processRequest deadEnv (.str "9007199254740993") (.str "0xA") (World.ofQueue [])) =
      some (.threw, 5, []) := by
  decide

/-- C5 (as amended).  For every request with a decimal-integer id whose value is below
`2^53`, every `MAX_RETRIES` and every `k` with `1 ≤ k ≤ MAX_RETRIES`: if the first `k - 1`
fetches fail and the `k`-th returns a decimal price string `p` whose digits denote an
integer `N` below `2^53`, then `processRequest` returns after exactly `k` fetches
followed by exactly one submission, of the numeral of `N * 10^10`, the caller address
unchanged and the numeral of the id; the sentinel is not submitted. -/
theorem processRequest_kth_attempt_ok (env : Env) (c : Val) (ids p : String) (w : World)
    (k : Nat) (hk1 : 1 ≤ k) (hk : k ≤ env.MAX_RETRIES)
    (hfail : ∀ i, i + 1 < k → env.fetchAt (w.fetches + i) = .fail)
    (hok : env.fetchAt (w.fetches + (k - 1)) = .ok (.str p))
    (hp : isDecimalPrice p = true) (hN : priceInteger p < 2 ^ 53)
    (hid : isDecimalInteger ids = true) (hI : digitsValue ids.data < 2 ^ 53) :
    ∃ w1, processRequest env (.str ids) c w = some (.returned, w1) ∧
      w1.trace = w.trace ++ (.start (.str ids) c :: (List.replicate k .fetch ++
        [.submit (Nat.repr (priceInteger p * 10 ^ 10)) c (Nat.repr (digitsValue ids.data))])) ∧
      w1.fetches = w.fetches + k ∧ w1.sends = w.sends + 1 ∧
      w1.pendingRequests = w.pendingRequests := by
  obtain ⟨j, rfl⟩ : ∃ j, k = j + 1 := ⟨k - 1, by omega⟩
  simp only [Nat.add_sub_cancel] at hok
  have hnone : ∀ i, i < j → attemptAction env c (.str ids) (w.fetches + i) = none := by
    intro i hi
    simp only [attemptAction, hfail i (by omega)]
  have hcast : ((priceInteger p : Int) * 10 ^ 10) = Int.ofNat (priceInteger p * 10 ^ 10) := by
    push_cast; rfl
  have hsome : attemptAction env c (.str ids) (w.fetches + j) =
      some (.submit (Nat.repr (priceInteger p * 10 ^ 10)) c
        (Nat.repr (digitsValue ids.data))) := by
    simp only [attemptAction, hok, submitArgs, normalisePrice_decimal p hp, if_pos hN,
      Val.toJSString, newBN_parseInt_decimalInteger ids hid hI, hcast]
    rfl
  rw [processRequest_first_ok env (.str ids) c w j _ (by omega) hnone hsome]
  refine ⟨_, rfl, ?_, rfl, rfl, rfl⟩
  simp only [World.afterSubmit, World.afterFetches, List.append_assoc, List.singleton_append]
  rfl

/-- C5, the instance of the claim: the request with id `"1"` from `"0xA"`, the first
fetch returning `"1234.56"`: one fetch and one submission of `1234560000000000`. -/
theorem processRequest_kth_attempt_ok_witness :
    1 ≤ 1 ∧ 1 ≤ liveEnv.MAX_RETRIES ∧ isDecimalPrice "1234.56" = true ∧
    priceInteger "1234.56" < 2 ^ 53 ∧ isDecimalInteger "1" = true ∧
    digitsValue "1".data < 2 ^ 53 ∧
    Nat.repr (priceInteger "1234.56" * 10 ^ 10) = "1234560000000000" ∧
    priceInteger "1234.56" = 123456 ∧
    requestView (processRequest liveEnv (.str "1") (.str "0xA") (World.ofQueue [])) =
      some (.returned, 1, [.submit "1234560000000000" (.str "0xA") "1"]) ∧
    ∃ w1, processRequest liveEnv (.str "1") (.str "0xA") (World.ofQueue []) =
        some (.returned, w1) ∧
      w1.trace = (World.ofQueue []).trace ++ (.start (.str "1") (.str "0xA") ::
        (List.replicate 1 .fetch ++
          [.submit (Nat.repr (priceInteger "1234.56" * 10 ^ 10)) (.str "0xA")
            (Nat.repr (digitsValue "1".data))])) ∧
      w1.fetches = (World.ofQueue []).fetches + 1 ∧ w1.sends = (World.ofQueue []).sends + 1 ∧
      w1.pendingRequests = (World.ofQueue []).pendingRequests :=
  ⟨by decide, by decide, by decide, by decide, by decide, by decide, by decide, by decide,
    by decide,
    processRequest_kth_attempt_ok liveEnv (.str "0xA") "1" "1234.56" (World.ofQueue []) 1
      (by decide) (by decide) (fun i hi => absurd hi (by omega)) rfl (by decide) (by decide)
      (by decide) (by decide)⟩

/-- C5 as stated fails: the request with the decimal-integer id `2^53 + 1`, the first
fetch (and every later one) returning the well-formed price `"1234.56"`.  Line 97 throws
at every attempt, so `processRequest` makes five fetches, not one, submits nothing and
throws. -/
theorem processRequest_large_id_never_submits :
    isDecimalInteger "9007199254740993" = true ∧ isDecimalPrice "1234.56" = true ∧
    requestView
        (processRequest liveEnv (.str "9007199254740993") (.str "0xA") (World.ofQueue [])) =
      some (.threw, 5, []) := by
  decide

/-- C10 (as amended).  A fetch that succeeds with a price on which lines 94 to 97 throw
(for the price or for the request id) is handled by the `try`/`catch` of `processRequest`
exactly as a fetch that fails: the run is the one in which those fetches throw.  So when
this happens at each of the `MAX_RETRIES ≥ 1` attempts, `processRequest` makes exactly
`MAX_RETRIES` fetches and then writes the sentinel back: if line 97 accepts the id, the
sentinel is submitted and the call returns; only if line 97 rejects the id does the
failure leave `processRequest`, with no submission. -/
theorem processRequest_normalisation_failure_caught (env : Env) (id c : Val) (w : World) :
    processRequest env id c w = processRequest (env.rejectedAsFailed c id) id c w ∧
    (1 ≤ env.MAX_RETRIES →
      (∀ i, i < env.MAX_RETRIES → ∃ p, env.fetchAt (w.fetches + i) = .ok p ∧
        (normalisePrice p = none ∨ idOk id = false)) →
      ∃ w0, w0.trace = w.trace ++ (.start id c :: List.replicate env.MAX_RETRIES .fetch) ∧
        w0.fetches = w.fetches + env.MAX_RETRIES ∧ w0.sends = w.sends ∧
        w0.pendingRequests = w.pendingRequests ∧ w0.log = w.log ∧
        processRequest env id c w =
          match newBN (parseInt id.toJSString) with
          | some idInt =>
            some (.returned, w0.afterSubmit env (.submit "0" c (bnToString idInt)))
          | none => some (.threw, w0)) := by
  constructor
  · unfold processRequest
    exact loop_congr env (env.rejectedAsFailed c id) id c rfl rfl
      (fun n => (attemptAction_rejectedAsFailed env c id n).symm) _ _ _
  · intro hM hbad
    have hatt : ∀ i, i < env.MAX_RETRIES →
        attemptAction env c id (w.fetches + i) = none := by
      intro i hi
      obtain ⟨p, h1, h2⟩ := hbad i hi
      simp only [attemptAction, h1]
      exact (submitArgs_eq_none_iff c p id).2 h2
    refine ⟨World.afterFetches env.MAX_RETRIES { w with trace := w.trace ++ [.start id c] },
      ?_, rfl, rfl, rfl, rfl, ?_⟩
    · simp [World.afterFetches]
    · rw [processRequest_all_fail env id c w hM hatt, setLatestEthPrice_eq,
        submitArgs_sentinel]
      cases newBN (parseInt id.toJSString) <;> rfl

/-- C10, an instance: the request with id `"1"` from `"0xA"` and a price source
that answers a price string whose digits denote `2^53 + 1`, on which line 96 throws:
five fetches are made and the sentinel is submitted. -/
theorem processRequest_normalisation_failure_caught_witness :
    1 ≤ largePriceEnv.MAX_RETRIES ∧
    normalisePrice (.str "90071992.54740993") = none ∧
    ∃ w0, w0.trace = (World.ofQueue []).trace ++
          (.start (.str "1") (.str "0xA") :: List.replicate largePriceEnv.MAX_RETRIES .fetch) ∧
        w0.fetches = (World.ofQueue []).fetches + largePriceEnv.MAX_RETRIES ∧
        w0.sends = (World.ofQueue []).sends ∧
        w0.pendingRequests = (World.ofQueue []).pendingRequests ∧
        w0.log = (World.ofQueue []).log ∧
        processRequest largePriceEnv (.str "1") (.str "0xA") (World.ofQueue []) =
          match newBN (parseInt (Val.str "1").toJSString) with
          | some idInt =>
            some (.returned,
              w0.afterSubmit largePriceEnv (.submit "0" (.str "0xA") (bnToString idInt)))
          | none => some (.threw, w0) :=
  ⟨by decide, by decide,
    (processRequest_normalisation_failure_caught largePriceEnv (.str "1") (.str "0xA")
      (World.ofQueue [])).2 (by decide)
      (fun _ _ => ⟨.str "90071992.54740993", rfl, Or.inl (by decide)⟩)⟩

/-- C10 as stated fails: when the fetch succeeds and normalising what it returned throws
(a price string whose digits denote `2^53 + 1`, or a value that is no string), the call
does not end there: four further fetches follow, the sentinel is submitted and
`processRequest` returns. -/
theorem processRequest_rejected_price_retried :
    normalisePrice (.str "90071992.54740993") = none ∧
    requestView (processRequest largePriceEnv (.str "1") (.str "0xA") (World.ofQueue [])) =
      some (.returned, 5, [.submit "0" (.str "0xA") "1"]) ∧
    normalisePrice .undefined = none ∧
    requestView (processRequest noPriceEnv (.str "1") (.str "0xA") (World.ofQueue [])) =
      some (.returned, 5, [.submit "0" (.str "0xA") "1"]) := by
  decide

/-! ## The write-back: `setLatestEthPrice` -/

/-- C4 (as amended).  For every decimal price string (digits with at most one decimal
point) whose digits, the point removed, denote an integer `N` below `2^53`, lines 94 to
96 compute exactly `N * 10^10`, and for a request id that line 97 accepts
`setLatestEthPrice` makes one submission whose price argument is the decimal numeral of
`N * 10^10`. -/
theorem setLatestEthPrice_decimal_price (env : Env) (c id : Val) (p : String) (w : World)
    (idInt : Int) (hp : isDecimalPrice p = true) (hN : priceInteger p < 2 ^ 53)
    (hid : newBN (parseInt id.toJSString) = some idInt) :
    normalisePrice (.str p) = some ((priceInteger p : Int) * 10 ^ 10) ∧
    ∃ w1, setLatestEthPrice env c (.str p) id w = (.returned, w1) ∧
      w1.trace = w.trace ++
        [.submit (Nat.repr (priceInteger p * 10 ^ 10)) c (bnToString idInt)] ∧
      w1.sends = w.sends + 1 ∧ w1.fetches = w.fetches ∧
      w1.pendingRequests = w.pendingRequests := by
  have hnorm : normalisePrice (.str p) = some ((priceInteger p : Int) * 10 ^ 10) := by
    rw [normalisePrice_decimal p hp, if_pos hN]
  have hcast : ((priceInteger p : Int) * 10 ^ 10) = Int.ofNat (priceInteger p * 10 ^ 10) := by
    push_cast; rfl
  refine ⟨hnorm, ?_⟩
  have hargs : submitArgs c (.str p) id =
      some (.submit (Nat.repr (priceInteger p * 10 ^ 10)) c (bnToString idInt)) := by
    simp only [submitArgs, hnorm, hid, hcast]
    rfl
  rw [setLatestEthPrice_eq, hargs]
  exact ⟨_, rfl, rfl, rfl, rfl, rfl⟩

/-- C4, the instance of the claim: `"1234.56"` gives `123456 * 10^10`, submitted as
`1234560000000000`. -/
theorem setLatestEthPrice_decimal_price_witness :
    isDecimalPrice "1234.56" = true ∧ priceInteger "1234.56" < 2 ^ 53 ∧
    priceInteger "1234.56" = 123456 ∧
    Nat.repr (priceInteger "1234.56" * 10 ^ 10) = "1234560000000000" ∧
    (normalisePrice (.str "1234.56") = some ((priceInteger "1234.56" : Int) * 10 ^ 10) ∧
    ∃ w1, setLatestEthPrice liveEnv (.str "0xA") (.str "1234.56") (.str "1")
        (World.ofQueue []) = (.returned, w1) ∧
      w1.trace = (World.ofQueue []).trace ++
        [.submit (Nat.repr (priceInteger "1234.56" * 10 ^ 10)) (.str "0xA") (bnToString 1)] ∧
      w1.sends = (World.ofQueue []).sends + 1 ∧ w1.fetches = (World.ofQueue []).fetches ∧
      w1.pendingRequests = (World.ofQueue []).pendingRequests) :=
  ⟨by decide, by decide, by decide, by decide,
    setLatestEthPrice_decimal_price liveEnv (.str "0xA") (.str "1") "1234.56"
      (World.ofQueue []) 1 (by decide) (by decide) (by decide)⟩

/-- C4 as stated fails: the decimal price string `"90071992.54740993"` denotes, without
its point, the integer `2^53 + 1`; lines 94 to 96 do not yield that integer times `10^10`
and `setLatestEthPrice` throws before any submission. -/
theorem setLatestEthPrice_large_price_throws :
    isDecimalPrice "90071992.54740993" = true ∧
    priceInteger "90071992.54740993" = 2 ^ 53 + 1 ∧
    normalisePrice (.str "90071992.54740993") ≠
      some ((priceInteger "90071992.54740993" : Int) * 10 ^ 10) ∧
    setLatestEthPrice liveEnv (.str "0xA") (.str "90071992.54740993") (.str "1")
        (World.ofQueue []) = (.threw, World.ofQueue []) := by
  decide

/-- C9 (as amended).  Lines 94 to 96 map the price string `"1234.5"` to the integer
`12345 * 10^10` and the price string `"1234.56"` to the integer `123456 * 10^10`. -/
theorem normalisePrice_examples :
    normalisePrice (.str "1234.5") = some (12345 * 10 ^ 10) ∧
    normalisePrice (.str "1234.56") = some (123456 * 10 ^ 10) := by
  decide

/-- C9 as stated fails in its first half: `"1234.5"` is not mapped to `123450 * 10^10`. -/
theorem normalisePrice_1234_5_not_123450 :
    normalisePrice (.str "1234.5") ≠ some (123450 * 10 ^ 10) := by
  decide

/-- C6 (as amended).  For every tick over a queue in which line 97 accepts the id of
each of the first `CHUNK_SIZE` entries, and every pattern of submission failures: the
tick returns and hands over every one of the first `min CHUNK_SIZE |q|` entries, in
order, so a failed submission stops nothing that follows; the calls of the tick are, for
each of these entries in turn, the entry into `processRequest`, at most `MAX_RETRIES`
fetches and then at most one submission (exactly one when `MAX_RETRIES ≥ 1`), so a
submission, failed or not, is made once and no fetch follows it; the queue that is left
is the rest of the old queue, so no request is put back; and under any other pattern of
submission failures the tick is the same up to the console output. -/
theorem submission_failure_terminal (env : Env) (sendAt2 : Nat → Bool) (w : World)
    (hid : ∀ r ∈ w.pendingRequests.take env.CHUNK_SIZE, idOk r.id = true) :
    ∃ w1 segs, processQueue env w = some (.returned, w1) ∧
      handed w1.trace = handed w.trace ++
        w.pendingRequests.take (min env.CHUNK_SIZE w.pendingRequests.length) ∧
      w1.pendingRequests =
        w.pendingRequests.drop (min env.CHUNK_SIZE w.pendingRequests.length) ∧
      w1.trace = w.trace ++ segs.flatten ∧
      List.Forall₂ (RequestSegment env)
        (w.pendingRequests.take (min env.CHUNK_SIZE w.pendingRequests.length)) segs ∧
      butLog (processQueue { env with sendAt := sendAt2 } w) = butLog (some (.returned, w1)) := by
  obtain ⟨w1, h1, h2, h3⟩ := processQueue_ok_spec env w hid
  obtain ⟨w2, segs, e1, e2, e3, _⟩ :=
    queueLoop_segments env (env.CHUNK_SIZE + 1) 0 w (by omega) (by simpa using hid)
  have hw : w2 = w1 := by
    unfold processQueue at h1
    rw [h1] at e1
    simp only [Option.some.injEq, Prod.mk.injEq, true_and] at e1
    exact e1.symm
  subst hw
  simp only [Nat.sub_zero] at e3
  refine ⟨w2, segs, h1, ?_, ?_, e2, ?_, ?_⟩
  · rw [h2, take_min_length]
  · rw [h3, drop_min_length]
  · rw [take_min_length]; exact e3
  · rw [← h1]
    unfold processQueue
    exact queueLoop_butLog { env with sendAt := sendAt2 } env rfl rfl rfl _ _ w w rfl

/-- C6, an instance: five requests with small ids, `CHUNK_SIZE = 3`, and a contract on
which every submission fails.  The tick returns, the first three requests are handed
over, each with one fetch and one submission, three failures are logged, and the last
two requests stay queued. -/
theorem submission_failure_terminal_witness :
    (∀ r ∈ (World.ofQueue fiveQueue).pendingRequests.take failingSendEnv.CHUNK_SIZE,
      idOk r.id = true) ∧
    queueView (processQueue failingSendEnv (World.ofQueue fiveQueue)) =
      some (.returned, fiveQueue.take 3, fiveQueue.drop 3) ∧
    requestView (processQueue failingSendEnv (World.ofQueue fiveQueue)) =
      some (.returned, 3,
        [.submit "1234560000000000" (.str "0xA") "1",
          .submit "1234560000000000" (.str "0xB") "2",
          .submit "1234560000000000" (.str "0xC") "3"]) ∧
    (processQueue failingSendEnv (World.ofQueue fiveQueue)).map (fun x => x.2.log.length) =
      some 3 ∧
    ∃ w1 segs, processQueue failingSendEnv (World.ofQueue fiveQueue) = some (.returned, w1) ∧
      handed w1.trace = handed (World.ofQueue fiveQueue).trace ++
        (World.ofQueue fiveQueue).pendingRequests.take
          (min failingSendEnv.CHUNK_SIZE (World.ofQueue fiveQueue).pendingRequests.length) ∧
      w1.pendingRequests =
        (World.ofQueue fiveQueue).pendingRequests.drop
          (min failingSendEnv.CHUNK_SIZE (World.ofQueue fiveQueue).pendingRequests.length) ∧
      w1.trace = (World.ofQueue fiveQueue).trace ++ segs.flatten ∧
      List.Forall₂ (RequestSegment failingSendEnv)
        ((World.ofQueue fiveQueue).pendingRequests.take
          (min failingSendEnv.CHUNK_SIZE (World.ofQueue fiveQueue).pendingRequests.length))
        segs ∧
      butLog (processQueue { failingSendEnv with sendAt := fun _ => true }
          (World.ofQueue fiveQueue)) = butLog (some (.returned, w1)) :=
  ⟨by decide, by decide, by decide, by decide,
    submission_failure_terminal failingSendEnv (fun _ => true) (World.ofQueue fiveQueue)
      (by decide)⟩

/-- C6 as stated fails: three queued requests, the second with the id `2^53 + 1`,
`CHUNK_SIZE = 3`, every submission failing.  The submission for the first request fails
and the tick goes on to the second, whose call throws out of `processQueue`; the third
request of the tick is not processed and stays queued. -/
theorem submission_failure_batch_cut :
    queueView (processQueue failingSendEnv (World.ofQueue midCutQueue)) =
      some (.threw, midCutQueue.take 2, midCutQueue.drop 2) ∧
    requestView (processQueue failingSendEnv (World.ofQueue midCutQueue)) =
      some (.threw, 6, [.submit "1234560000000000" (.str "0xA") "1"]) ∧
    midCutQueue.take (min failingSendEnv.CHUNK_SIZE midCutQueue.length) ≠
      midCutQueue.take 2 := by
  decide

/-! ## The listener: `addRequestToQueue` -/

/-- C7.  For every queue and every event carrying a caller address `a` and an id `i`,
`addRequestToQueue` (and the listener that calls it) returns with the queue equal to the
old queue followed by the one entry made of `a` and `i`; nothing is looked up in the
queue, so an equal entry already there is kept and the new one counts beside it. -/
theorem addRequestToQueue_appends (w : World) (a i : Val) :
    addRequestToQueue ⟨some ⟨a, i⟩⟩ w =
      (.returned, { w with pendingRequests := w.pendingRequests ++ [⟨a, i⟩] }) ∧
    onGetLatestEthPriceEvent none ⟨some ⟨a, i⟩⟩ w =
      (.returned, { w with pendingRequests := w.pendingRequests ++ [⟨a, i⟩] }) ∧
    (addRequestToQueue ⟨some ⟨a, i⟩⟩ w).2.pendingRequests.count ⟨a, i⟩ =
      w.pendingRequests.count ⟨a, i⟩ + 1 := by
  refine ⟨rfl, rfl, ?_⟩
  simp [addRequestToQueue]

/-- C8 (as amended).  An event that the subscription delivers with an error is dropped
by the listener: the queue stays as it is, the callback returns, and a later
well-formed event is appended.  An event delivered without an error whose payload has no
id is not dropped: it is appended with an undefined id, the callback returns, and a
later well-formed event is appended after it. -/
theorem listener_drops_only_errors (w : World) (err : String) (ev : Event) (a b i : Val) :
    onGetLatestEthPriceEvent (some err) ev w =
      (.returned, { w with log := w.log ++ ["Error on event"] }) ∧
    (onGetLatestEthPriceEvent none ⟨some ⟨b, i⟩⟩
        (onGetLatestEthPriceEvent (some err) ev w).2).1 = .returned ∧
    (onGetLatestEthPriceEvent none ⟨some ⟨b, i⟩⟩
        (onGetLatestEthPriceEvent (some err) ev w).2).2.pendingRequests =
      w.pendingRequests ++ [⟨b, i⟩] ∧
    onGetLatestEthPriceEvent none ⟨some ⟨a, .undefined⟩⟩ w =
      (.returned, { w with pendingRequests := w.pendingRequests ++ [⟨a, .undefined⟩] }) ∧
    onGetLatestEthPriceEvent none ⟨some ⟨b, i⟩⟩
        (onGetLatestEthPriceEvent none ⟨some ⟨a, .undefined⟩⟩ w).2 =
      (.returned,
        { w with pendingRequests := w.pendingRequests ++ [⟨a, .undefined⟩] ++ [⟨b, i⟩] }) := by
  exact ⟨rfl, rfl, rfl, rfl, rfl⟩

/-- C8 as stated fails: an event without error whose payload lacks the id, arriving at
the empty queue, leaves a queue of one entry. -/
theorem listener_enqueues_missing_id :
    (onGetLatestEthPriceEvent none ⟨some ⟨.str "0xA", .undefined⟩⟩
        (World.ofQueue [])).2.pendingRequests = [⟨.str "0xA", .undefined⟩] ∧
    (onGetLatestEthPriceEvent none ⟨some ⟨.str "0xA", .undefined⟩⟩
        (World.ofQueue [])).2.pendingRequests ≠ (World.ofQueue []).pendingRequests := by
  decide

end EthPriceOracle
